import Mathlib

/-!
# Verification of `Config/Config.py` (TinyG-Utils)

Shallow embedding of the TinyG configuration tool: the schema registry
(`CONFIG_STR`, `CONFIG_MAP`, `CONFIG_READ_ONLY`, `AXIS_MODE`), the flat-key
resolver (`id_to_group_key`), the configuration store (`Config`), the
text/JSON codec (`read_text`, `dump_formatted`, `write`/`read`), and the
device protocol driver (`read_response`, `read_config`, `write_config`).

Python strings are modelled as `List Char` (wrapped in `String` at the
boundaries); Python dicts as association lists that keep insertion order,
which is exactly the iteration order Python guarantees.  JSON values are the
inductive `Json` below; `json.dumps`/`json.loads` from the standard library
are treated as exact mutual inverses, so serialization is modelled at the
level of the `Json` tree.  Python floats are modelled as exact rationals;
every float appearing in the theorems below is exactly representable, so no
rounding behaviour of binary64 is relied upon.
-/

namespace TinyG

/-- A JSON value as produced by `json.loads` (and held in the two-level
configuration dictionary).  Python ints and floats are kept distinct, as
`json` does. -/
inductive Json where
  | jnull
  | jbool (b : Bool)
  | jint (n : Int)
  | jfloat (q : Rat)
  | jstr (s : String)
  | jarr (elts : List Json)
  | jobj (fields : List (String × Json))

/-- Python truthiness of a JSON value (`if not response:` etc.):
`None`, `False`, `0`, `0.0`, `""`, `[]` and `{}` are falsy. -/
def jtruthy : Json → Bool
  | .jnull => false
  | .jbool b => b
  | .jint n => n != 0
  | .jfloat q => q != 0
  | .jstr s => !s.data.isEmpty
  | .jarr l => !l.isEmpty
  | .jobj l => !l.isEmpty

/-! ## Python string primitives (on `List Char`) -/

/-- Characters Python's `str.strip`/`str.split` treat as whitespace. -/
def isPySpace (c : Char) : Bool :=
  c == ' ' || c == '\t' || c == '\n' || c == '\r' || c == '\x0b' || c == '\x0c'

/-- Python `str.strip()`: remove leading and trailing whitespace. -/
def pyStrip (s : List Char) : List Char :=
  ((s.dropWhile isPySpace).reverse.dropWhile isPySpace).reverse

/-- Worker for `pySplit`; `acc` holds the current token, reversed. -/
def pySplitGo : List Char → List Char → List (List Char)
  | [], acc => if acc.isEmpty then [] else [acc.reverse]
  | c :: rest, acc =>
    if isPySpace c then
      if acc.isEmpty then pySplitGo rest [] else acc.reverse :: pySplitGo rest []
    else pySplitGo rest (c :: acc)

/-- Python `str.split()` with no argument: split on runs of whitespace,
discarding empty tokens. -/
def pySplit (s : List Char) : List (List Char) := pySplitGo s []

/-- Python `str.find`: index of the first occurrence, `-1` if absent. -/
def pyFind (s : List Char) (c : Char) : Int :=
  match s.findIdx? (· == c) with
  | some i => (i : Int)
  | none => -1

/-! ## Python numeric parsing (`int(...)`, `float(...)`) -/

/-- ASCII decimal digit (what `int()`/`float()` accept here). -/
def isDig (c : Char) : Bool := 47 < c.toNat && c.toNat < 58

/-- Numeric value of a digit string (most significant first). -/
def digitsVal (l : List Char) : Nat :=
  l.foldl (fun a c => a * 10 + (c.toNat - '0'.toNat)) 0

/-- Nonempty and all decimal digits. -/
def digitsOnly (l : List Char) : Bool := !l.isEmpty && l.all isDig

/-- Python `int(s)`: surrounding whitespace, an optional sign, then one or
more decimal digits.  (Underscore digit separators and non-ASCII digits are
not modelled; no input in this development contains them.) -/
def pyIntVal (s : List Char) : Option Int :=
  match pyStrip s with
  | [] => none
  | c :: ds =>
    if c == '+' then (if digitsOnly ds then some ((digitsVal ds : Nat) : Int) else none)
    else if c == '-' then (if digitsOnly ds then some (-((digitsVal ds : Nat) : Int)) else none)
    else if digitsOnly (c :: ds) then some ((digitsVal (c :: ds) : Nat) : Int) else none

/-- Decimal digits of `n`, most significant first, accumulated in `acc`;
`fuel` bounds the recursion (any `fuel > 0` with `10 ^ fuel > n` suffices). -/
def natReprGo : Nat → Nat → List Char → List Char
  | 0, _, acc => acc
  | fuel + 1, n, acc =>
    let d := Char.ofNat (n % 10 + '0'.toNat)
    if n < 10 then d :: acc else natReprGo fuel (n / 10) (d :: acc)

/-- Decimal rendering of a natural number (`str(n)`). -/
def natRepr (n : Nat) : List Char := natReprGo (n + 1) n []

/-- Decimal rendering of an integer (`str(n)`, `'{:d}'.format(n)`). -/
def intRepr : Int → List Char
  | .ofNat n => natRepr n
  | .negSucc m => '-' :: natRepr (m + 1)

/-- Split a char list into its leading digit run and the remainder. -/
def splitDigits (l : List Char) : List Char × List Char :=
  (l.takeWhile isDig, l.dropWhile isDig)

/-- Optional exponent part of a float literal, applied to mantissa `m`. -/
def parseExp (m : Rat) (l : List Char) : Option Rat :=
  match l with
  | [] => some m
  | e :: r =>
    if e == 'e' || e == 'E' then
      match r with
      | [] => none
      | c :: ds =>
        if c == '+' then (if digitsOnly ds then some (m * (10 : Rat) ^ digitsVal ds) else none)
        else if c == '-' then (if digitsOnly ds then some (m / (10 : Rat) ^ digitsVal ds) else none)
        else if digitsOnly (c :: ds) then some (m * (10 : Rat) ^ digitsVal (c :: ds)) else none
    else none

/-- Unsigned finite float literal: `digits [. digits]` or `. digits`, with an
optional exponent.  The value is the exact rational the literal denotes. -/
def parseFloatBody (l : List Char) : Option Rat :=
  let ip := l.takeWhile isDig
  match l.dropWhile isDig with
  | [] => if ip.isEmpty then none else parseExp (digitsVal ip : Rat) []
  | c :: r2 =>
    if c == '.' then
      let fp := r2.takeWhile isDig
      if ip.isEmpty && fp.isEmpty then none
      else parseExp ((digitsVal ip : Rat) + (digitsVal fp : Rat) / (10 : Rat) ^ fp.length)
        (r2.dropWhile isDig)
    else if ip.isEmpty then none else parseExp (digitsVal ip : Rat) (c :: r2)

/-- `inf`, `infinity`, `nan`, case-insensitively. -/
def isInfNan (l : List Char) : Bool :=
  let low := l.map Char.toLower
  low == "inf".data || low == "infinity".data || low == "nan".data

/-- Python `float(s)`.  `some none` marks a valid literal whose value is an
infinity or NaN (a Python float with no exact rational model); `some (some q)`
is a finite literal of exact value `q`; `none` is a `ValueError`.
The binary64 rounding Python applies is not modelled: every float value a
theorem below touches is exactly representable. -/
def pyFloatCore (s : List Char) : Option (Option Rat) :=
  let t := pyStrip s
  let sb : Rat × List Char :=
    match t with
    | [] => (1, [])
    | c :: r =>
      if c == '+' then (1, r)
      else if c == '-' then (-1, r)
      else (1, c :: r)
  if isInfNan sb.2 then some none
  else
    match parseFloatBody sb.2 with
    | some q => some (some (sb.1 * q))
    | none => none

/-- `is_number(s)`: does `float(s)` succeed? -/
def is_number (s : List Char) : Bool := (pyFloatCore s).isSome

/-- `get_val(val_str)`: try `int`, then `float`, else keep the string.
`none` marks the out-of-model case where Python would produce an inf/NaN
float. -/
def get_val (s : List Char) : Option Json :=
  match pyIntVal s with
  | some n => some (.jint n)
  | none =>
    match pyFloatCore s with
    | some (some q) => some (.jfloat q)
    | some none => none
    | none => some (.jstr ⟨s⟩)

/-! ## Schema registry (`CONFIG_STR`, `CONFIG_MAP`, `CONFIG_READ_ONLY`,
`AXIS_MODE`), transcribed from the source -/

/-- Per-schema field tables: `(key, description, display-format)`. -/
def CONFIG_STR : List (String × List (String × String × String)) :=
  [ ("sys",
     [ ("fb",   "firmware build",               "{:.2f}"),
       ("fv",   "firmware version",             "{:.2f}"),
       ("hp",   "hardware platform",            "{:.2f}"),
       ("hv",   "hardware version",             "{:.2f}"),
       ("id",   "TinyG ID",                     "{}"),
       ("ja",   "junction acceleration",        "{:d} mm"),
       ("ct",   "chordal tolerance",            "{:.4f} mm"),
       ("sl",   "soft limit enable",            "{:d}"),
       ("st",   "switch type",                  "{:d} [0=NO,1=NC]"),
       ("mt",   "motor idle timeout",           "{:.2f} Sec"),
       ("ej",   "enable json mode",             "{:d} [0=text,1=JSON]"),
       ("jv",   "json verbosity",               "{:d} [0=silent,1=footer,2=messages,3=configs,4=linenum,5=verbose]"),
       ("js",   "json serialize style",         "{:d} [0=relaxed,1=strict]"),
       ("tv",   "text verbosity",               "{:d} [0=silent,1=verbose]"),
       ("qv",   "queue report verbosity",       "{:d} [0=off,1=single,2=triple]"),
       ("sv",   "status report verbosity",      "{:d} [0=off,1=filtered,2=verbose]"),
       ("si",   "status interval",              "{:d} ms"),
       ("ec",   "expand LF to CRLF on TX",      "{:d} [0=off,1=on]"),
       ("ee",   "enable echo",                  "{:d} [0=off,1=on]"),
       ("ex",   "enable flow control",          "{:d} [0=off,1=XON/XOFF, 2=RTS/CTS]"),
       ("baud", "USB baud rate",                "{:d} [1=9600,2=19200,3=38400,4=57600,5=115200,6=230400]"),
       ("net",  "network mode",                 "{:d} [0=master]"),
       ("gpl",  "default gcode plane",          "{:d} [0=G17,1=G18,2=G19]"),
       ("gun",  "default gcode units mode",     "{:d} [0=G20,1=G21]"),
       ("gco",  "default gcode coord system",   "{:d} [1-6 (G54-G59)]"),
       ("gpa",  "default gcode path control",   "{:d} [0=G61,1=G61.1,2=G64]"),
       ("gdi",  "default gcode distance mode",  "{:d} [0=G90,1=G91]") ]),
    ("1",
     [ ("ma",   "map to axis",                  "{:d} [0=X,1=Y,2=Z...]"),
       ("sa",   "step angle",                   "{:.3f} deg"),
       ("tr",   "travel per revolution",        "{:.4f} mm"),
       ("mi",   "microsteps",                   "{:d} [1,2,4,8]"),
       ("po",   "polarity",                     "{:d} [0=normal,1=reverse]"),
       ("pm",   "power management",             "{:d} [0=disabled,1=always on,2=in cycle,3=when moving]") ]),
    ("x",
     [ ("am",   "axis mode",                    "{:d} [standard]"),
       ("vm",   "velocity maximum",             "{:d} mm/min"),
       ("fr",   "feedrate maximum",             "{:d} mm/min"),
       ("tn",   "travel minimum",               "{:.3f} mm"),
       ("tm",   "travel maximum",               "{:.3f} mm"),
       ("jm",   "jerk maximum",                 "{:d} mm/min^3 * 1 million"),
       ("jh",   "jerk homing",                  "{:d} mm/min^3 * 1 million"),
       ("jd",   "junction deviation",           "{:.4f} mm (larger is faster)"),
       ("sn",   "switch min",                   "{:d} [0=off,1=homing,2=limit,3=limit+homing]"),
       ("sx",   "switch max",                   "{:d} [0=off,1=homing,2=limit,3=limit+homing]"),
       ("sv",   "search velocity",              "{:d} mm/min"),
       ("lv",   "latch velocity",               "{:d} mm/min"),
       ("lb",   "latch backoff",                "{:.3f} mm"),
       ("zb",   "zero backoff",                 "{:.3f} mm") ]),
    ("a",
     [ ("am",   "axis mode",                    "{:d} [radius]"),
       ("vm",   "velocity maximum",             "{:d} deg/min"),
       ("fr",   "feedrate maximum",             "{:d} deg/min"),
       ("tn",   "travel minimum",               "{:.3f} deg"),
       ("tm",   "travel maximum",               "{:.3f} deg"),
       ("jm",   "jerk maximum",                 "{:d} deg/min^3 * 1 million"),
       ("jh",   "jerk homing",                  "{:d} deg/min^3 * 1 million"),
       ("jd",   "junction deviation",           "{:.4f} deg (larger is faster)"),
       ("ra",   "radius value",                 "{:.4f} deg"),
       ("sn",   "switch min",                   "{:d} [0=off,1=homing,2=limit,3=limit+homing]"),
       ("sx",   "switch max",                   "{:d} [0=off,1=homing,2=limit,3=limit+homing]"),
       ("sv",   "search velocity",              "{:d} deg/min"),
       ("lv",   "latch velocity",               "{:d} deg/min"),
       ("lb",   "latch backoff",                "{:.3f} deg"),
       ("zb",   "zero backoff",                 "{:.3f} deg") ]),
    ("p",
     [ ("frq",  "pwm frequency",                "{:d} Hz"),
       ("csl",  "pwm cw speed lo",              "{:d} RPM"),
       ("csh",  "pwm cw speed hi",              "{:d} RPM"),
       ("cpl",  "pwm cw phase lo",              "{:.3f} [0..1]"),
       ("cph",  "pwm cw phase hi",              "{:.3f} [0..1]"),
       ("wsl",  "pwm ccw speed lo",             "{:d} RPM"),
       ("wsh",  "pwm ccw speed hi",             "{:d} RPM"),
       ("wpl",  "pwm ccw phase lo",             "{:.3f} [0..1]"),
       ("wph",  "pwm ccw phase hi",             "{:.3f} [0..1]"),
       ("pof",  "pwm phase off",                "{:.3f} [0..1]") ]),
    ("g",
     [ ("x",    "x offset",                     "{:.3f} mm"),
       ("y",    "y offset",                     "{:.3f} mm"),
       ("z",    "z offset",                     "{:.3f} mm"),
       ("a",    "a offset",                     "{:.3f} deg"),
       ("b",    "b offset",                     "{:.3f} deg"),
       ("c",    "c offset",                     "{:.3f} deg") ]),
    ("h",
     [ ("x",    "x position",                   "{:.3f} mm"),
       ("y",    "y position",                   "{:.3f} mm"),
       ("z",    "z position",                   "{:.3f} mm"),
       ("a",    "a position",                   "{:.3f} deg"),
       ("b",    "b position",                   "{:.3f} deg"),
       ("c",    "c position",                   "{:.3f} deg") ]) ]

/-- The ordered group mapping `(group-id, schema-id)`. -/
def CONFIG_MAP : List (String × String) :=
  [ ("sys", "sys"),
    ("1",   "1"),
    ("2",   "1"),
    ("3",   "1"),
    ("4",   "1"),
    ("x",   "x"),
    ("y",   "x"),
    ("z",   "x"),
    ("a",   "a"),
    ("b",   "a"),
    ("c",   "a"),
    ("p1",  "p"),
    ("g54", "g"),
    ("g55", "g"),
    ("g56", "g"),
    ("g57", "g"),
    ("g58", "g"),
    ("g59", "g"),
    ("g92", "g"),
    ("g28", "h"),
    ("g30", "h") ]

/-- Per-group read-only keys (a Python set; modelled as a list, membership
being all that is ever used). -/
def CONFIG_READ_ONLY : List (String × List String) :=
  [("sys", ["fb", "fv", "hp", "hv", "id", "baud"])]

/-- Axis-mode enumeration labels. -/
def AXIS_MODE : List String := ["[disabled]", "[standard]", "[inhibited]", "[radius]"]

/-! ## Flat-key resolution -/

/-- `get_group_strs(group_id)`: the field table of the schema the group maps
to (`None` when the group id is not in `CONFIG_MAP`). -/
def get_group_strs (group_id : String) : Option (List (String × String × String)) :=
  match CONFIG_MAP.find? (fun me => me.1 == group_id) with
  | some me => CONFIG_STR.lookup me.2
  | none => none

/-- `is_id_in_group(id, group_id)`: is `i` a key of the schema `group_id`
maps to?  (With an unknown group id the Python code would raise; that case is
unreachable from the program and modelled as `false`.) -/
def is_id_in_group (i group_id : String) : Bool :=
  match get_group_strs group_id with
  | some strs => strs.any (fun e => e.1 == i)
  | none => false

/-- The scan over `CONFIG_MAP` inside `id_to_group_key`. -/
def idScan (i : String) : List (String × String) → Option (String × String)
  | [] => none
  | me :: rest =>
    let group_id := me.1
    if group_id.data.isPrefixOf i.data then
      let group_key : String := ⟨i.data.drop group_id.data.length⟩
      if is_id_in_group group_key group_id then some (group_id, group_key)
      else idScan i rest
    else idScan i rest

/-- `id_to_group_key(id)`: resolve a flat text-dump key into a
`(group, key)` pair; `none` models Python's implicit `None`. -/
def id_to_group_key (i : String) : Option (String × String) :=
  if is_id_in_group i "sys" then some ("sys", i)
  else idScan i CONFIG_MAP

/-- The flat key the firmware's text dump uses for a `(group, key)` pair:
the bare key for `sys`, the concatenation otherwise. -/
def flat_key (g k : String) : String :=
  if g == "sys" then k else ⟨g.data ++ k.data⟩

/-- Every `(group-id, key)` pair reachable via the group mapping: each group
id of `CONFIG_MAP` paired with each key of the schema it maps to. -/
def reachable_pairs : List (String × String) :=
  CONFIG_MAP.flatMap (fun me =>
    match CONFIG_STR.lookup me.2 with
    | some strs => strs.map (fun e => (me.1, e.1))
    | none => [])

/-! ## The configuration store (`Config`) -/

/-- The two-level configuration dictionary: group id to field map.  Python
dicts are association lists in insertion order with unique keys. -/
abbrev Store := List (String × List (String × Json))

/-- `dict.__setitem__`-style update of one key: replace in place, else
append. -/
def setKey : List (String × Json) → String → Json → List (String × Json)
  | [], k, v => [(k, v)]
  | (k2, v2) :: rest, k, v =>
    if k2 == k then (k2, v) :: rest else (k2, v2) :: setKey rest k v

/-- Python `dict.update`: merge `upd` into `d`, overwriting on collision. -/
def dictUpdate (d upd : List (String × Json)) : List (String × Json) :=
  upd.foldl (fun acc kv => setKey acc kv.1 kv.2) d

/-- One step of `add_group`: `self.config[key].update(...)` when the group
exists, `self.config[key] = ...` otherwise. -/
def addOne : Store → String → List (String × Json) → Store
  | [], g, fields => [(g, fields)]
  | (g2, f2) :: rest, g, fields =>
    if g2 == g then (g2, dictUpdate f2 fields) :: rest
    else (g2, f2) :: addOne rest g fields

/-- `Config.add_group(group_dict)`: walk the top level of `group_dict`,
merging each group. -/
def add_group (st : Store) (group_dict : Store) : Store :=
  group_dict.foldl (fun acc kv => addOne acc kv.1 kv.2) st

/-- `Config.get_group(group_id)` (the `.copy()` is irrelevant to values). -/
def get_group (st : Store) (group_id : String) : Option (List (String × Json)) :=
  st.lookup group_id

/-! ## JSON serialization (`Config.write` / the JSON branch of
`Config.read`).  `json.dumps`/`json.loads` are exact inverses on trees, so
both are modelled at the level of the `Json` document. -/

/-- `Config.write`: the JSON document `json.dumps(self.config)` denotes. -/
def write (st : Store) : Json :=
  .jobj (st.map fun e => (e.1, .jobj e.2))

/-- The per-key loop of `Config.read`'s JSON branch:
`for key in cfg_dict: self.add_group({key : cfg_dict[key]})`.  A top-level
value that is not a JSON object is out of the model (`none`): Python would
install a non-dict group that the rest of the program cannot use. -/
def read_doc_go : Store → List (String × Json) → Option Store
  | st, [] => some st
  | st, (k, .jobj fields) :: rest => read_doc_go (addOne st k fields) rest
  | _, _ => none

/-- `Config.read` on a JSON document (its first character is `{`). -/
def read_doc (doc : Json) (st : Store) : Option Store :=
  match doc with
  | .jobj l => read_doc_go st l
  | _ => none

/-! ## Text parsing (`Config.read_text`) -/

/-- `re.search(r'\[(.*)\]', tok).group(1)`: the characters strictly between
the first `[` and the last `]` following it (`none` when the pattern does
not match, in which case Python raises on `.group`). -/
def extractBracket (tok : List Char) : Option (List Char) :=
  match tok.dropWhile (fun c => c != '[') with
  | [] => none
  | _ :: after =>
    match after.reverse.dropWhile (fun c => c != ']') with
    | [] => none
    | _ :: revKey => some revKey.reverse

/-- Parse one line of the firmware's `$$` text dump, as the body of
`read_text`'s loop does.  `some none` is a skipped line (not starting with
`[`); outer `none` is a case where Python raises (empty line, no bracketed
key, a missing value token, an unknown flat key, or an inf/NaN value). -/
def parse_line (line : String) : Option (Option ((String × String) × Json)) :=
  match line.data with
  | [] => none
  | c :: _ =>
    if c != '[' then some none
    else
      let fields := pySplit (pyStrip line.data)
      match fields with
      | [] => none
      | f0 :: _ =>
        match extractBracket f0 with
        | none => none
        | some key =>
          let val_str : Option (List Char) :=
            if key == "id".data then fields.get? 3
            else (fields.drop 1).find? (fun t => is_number t)
          match val_str with
          | none => none
          | some vs =>
            match id_to_group_key ⟨key⟩ with
            | none => none
            | some (g, k) =>
              match get_val vs with
              | none => none
              | some v => some (some ((g, k), v))

/-- `Config.read_text(lines)`: fold the per-line parse, merging
`{group : {key : val}}` for each setting line. -/
def read_text : List String → Store → Option Store
  | [], st => some st
  | l :: rest, st =>
    match parse_line l with
    | none => none
    | some none => read_text rest st
    | some (some ((g, k), v)) => read_text rest (addOne st g [(k, v)])

/-! ## Text formatting (`Config.dump_formatted`) -/

/-- Python `str()` for the value kinds that reach `'{}'.format`; the repr of
a float is out of the model (no float is ever displayed through `{}` in the
theorems below). -/
def pyStr : Json → Option (List Char)
  | .jint n => some (intRepr n)
  | .jstr s => some s.data
  | _ => none

/-- Right-pad with spaces to width `w` (`'{:5s}'`, `'{:29s}'`). -/
def padTo (w : Nat) (s : List Char) : List Char :=
  s ++ List.replicate (w - s.length) ' '

/-- Split a format template at its single placeholder:
`(literal-before, spec, literal-after)`. -/
def splitTemplate (t : List Char) : Option (List Char × List Char × List Char) :=
  let pre := t.takeWhile (fun c => c != '{')
  match t.dropWhile (fun c => c != '{') with
  | [] => none
  | _ :: r =>
    let spec := r.takeWhile (fun c => c != '}')
    match r.dropWhile (fun c => c != '}') with
    | [] => none
    | _ :: post => some (pre, spec, post)

/-- Fixed-point rendering of an exact rational to `n` decimal places,
rounding half to even — what `'{:.nf}'.format` does to the exact value of
its argument.  (Python formats the binary64 nearest to the written literal;
every value reaching this function in a theorem is exactly representable,
and the sign of a negative zero is not modelled.) -/
def ratFixed (q : Rat) (n : Nat) : List Char :=
  let scaled : Rat := q * (10 : Rat) ^ n
  let fl : Int := ⌊scaled⌋
  let frac : Rat := scaled - (fl : Rat)
  let r : Int :=
    if frac > 1/2 then fl + 1
    else if frac < 1/2 then fl
    else if fl % 2 = 0 then fl else fl + 1
  let ds := natRepr r.natAbs
  let pad := if ds.length ≤ n then List.replicate (n + 1 - ds.length) '0' ++ ds else ds
  let sign : List Char := if r < 0 then ['-'] else []
  if n == 0 then sign ++ pad
  else sign ++ pad.take (pad.length - n) ++ '.' :: pad.drop (pad.length - n)

/-- Apply one format spec (the forms appearing in `CONFIG_STR`: `{}`,
`{:d}`, `{:.Nf}`) to a value; `none` models Python raising for an
ill-typed value or an unmodelled spec. -/
def formatSpec (spec : List Char) (v : Json) : Option (List Char) :=
  if spec.isEmpty then pyStr v
  else if spec == ":d".data then
    match v with
    | .jint n => some (intRepr n)
    | _ => none
  else
    match spec with
    | ':' :: '.' :: rest =>
      let nds := rest.takeWhile isDig
      if rest.dropWhile isDig == ['f'] && !nds.isEmpty then
        match v with
        | .jint i => some (intRepr i ++ '.' :: List.replicate (digitsVal nds) '0')
        | .jfloat q => some (ratFixed q (digitsVal nds))
        | _ => none
      else none
    | _ => none

/-- `template.format(val)` for a single-placeholder template. -/
def renderFmt (t : String) (v : Json) : Option (List Char) :=
  match splitTemplate t.data with
  | none => none
  | some (pre, spec, post) => (formatSpec spec v).map (fun body => pre ++ body ++ post)

/-- `AXIS_MODE[val]` with Python list indexing (negative indices wrap;
out-of-range raises). -/
def axisModeAt (v : Json) : Option String :=
  match v with
  | .jint n =>
    if 0 ≤ n && n < 4 then AXIS_MODE.get? n.toNat
    else if -4 ≤ n && n < 0 then AXIS_MODE.get? (n + 4).toNat
    else none
  | _ => none

/-- The rendered value string `right = units.format(val)`, including the
`am` special case that substitutes the axis-mode label into the units. -/
def fmt_right (key units : String) (v : Json) : Option (List Char) :=
  if key == "am" then
    match axisModeAt v with
    | none => none
    | some am => renderFmt ⟨"{:d} ".data ++ am.data⟩ v
  else renderFmt units v

/-- The column-alignment index of `dump_formatted`: first space and first
period of the rendered value string, combined exactly as the source does. -/
def align_of (right : List Char) : Int :=
  let space := pyFind right ' '
  let period := pyFind right '.'
  let a := if period > 0 && (space < 0 || (space > 0 && period < space)) then period else space
  if a < 0 then 1 else a

/-- Number of trailing characters `left[:-(align + 1)]` removes. -/
def trim_count (right : List Char) : Nat := (align_of right + 1).toNat

/-- The decorated description (`m<prefix> ...` for motors, `<prefix> ...`
for axis/offset/home groups).  Python tests `mapPrefix in 'xagh'`
(substring); for the schema ids that occur this is membership in
`{x, a, g, h}`. -/
def decorate (pfx mapPfx descr : String) : List Char :=
  if mapPfx == "1" then 'm' :: pfx.data ++ ' ' :: descr.data
  else if mapPfx == "x" || mapPfx == "a" || mapPfx == "g" || mapPfx == "h" then
    pfx.data ++ ' ' :: descr.data
  else descr.data

/-- The bracketed flat-key label. -/
def fmt_key_of (pfx key : String) : List Char :=
  if pfx == "sys" then '[' :: key.data ++ [']']
  else '[' :: pfx.data ++ key.data ++ [']']

/-- One printed line of `dump_formatted` for a present field. -/
def fmt_line (pfx mapPfx key descr units : String) (v : Json) : Option String :=
  match fmt_right key units v with
  | none => none
  | some right =>
    let left := (padTo 5 (fmt_key_of pfx key) ++ ' ' :: padTo 29 (decorate pfx mapPfx descr)).take 35
    some ⟨left.take (left.length - trim_count right) ++ ' ' :: right⟩

/-- The inner field loop of `dump_formatted` for one present group. -/
def dump_fields (pfx mapPfx : String) (vals : List (String × Json)) :
    List (String × String × String) → Option (List String)
  | [] => some []
  | (key, descr, units) :: rest =>
    match vals.lookup key with
    | none => dump_fields pfx mapPfx vals rest
    | some v =>
      match fmt_line pfx mapPfx key descr units v with
      | none => none
      | some line => (dump_fields pfx mapPfx vals rest).map (line :: ·)

/-- The outer group loop of `dump_formatted`. -/
def dump_go (st : Store) : List (String × String) → Option (List String)
  | [] => some []
  | me :: rest =>
    match st.lookup me.1 with
    | none => dump_go st rest
    | some vals =>
      match CONFIG_STR.lookup me.2 with
      | none => none
      | some strs =>
        match dump_fields me.1 me.2 vals strs with
        | none => none
        | some lines => (dump_go st rest).map (lines ++ ·)

/-- `Config.dump_formatted()`: the list of printed lines (`none` when
Python would raise while formatting). -/
def dump_formatted (st : Store) : Option (List String) := dump_go st CONFIG_MAP

/-- The displayed `(group, key, rendered value)` triples of
`dump_formatted`, in display order. -/
def display_fields (pfx : String) (vals : List (String × Json)) :
    List (String × String × String) → Option (List (String × String × String))
  | [] => some []
  | (key, _, units) :: rest =>
    match vals.lookup key with
    | none => display_fields pfx vals rest
    | some v =>
      match fmt_right key units v with
      | none => none
      | some right => (display_fields pfx vals rest).map ((pfx, key, (⟨right⟩ : String)) :: ·)

/-- Group loop of `display_triples`. -/
def display_go (st : Store) : List (String × String) → Option (List (String × String × String))
  | [] => some []
  | me :: rest =>
    match st.lookup me.1 with
    | none => display_go st rest
    | some vals =>
      match CONFIG_STR.lookup me.2 with
      | none => none
      | some strs =>
        match display_fields me.1 vals strs with
        | none => none
        | some ts => (display_go st rest).map (ts ++ ·)

/-- The set (in display order) of `(group, key, displayed value)` triples
`dump_formatted` prints. -/
def display_triples (st : Store) : Option (List (String × String × String)) :=
  display_go st CONFIG_MAP

/-! ## Device protocol driver (`TinyG.read_response`, `read_config`,
`write_config`)

The line transport is modelled by a list of parsed incoming JSON lines; the
end of the list is the read timeout (`recv_json` returning `None`).  Note
that `read_response`'s `if not response:` fires on any *falsy* parsed line
(for example `{}`), not only on a timeout. -/

/-- `TinyG.read_response`: read lines until one is falsy (treated as a
timeout, result `none`) or contains a top-level `r` key (result its value).
Returns the result and the unconsumed stream.  A truthy line that is not a
JSON object is out of the model (`'r' in response` would be a containment
test or a `TypeError`): outer `none`. -/
def read_response : List Json → Option (Option Json × List Json)
  | [] => some (none, [])
  | j :: rest =>
    if !jtruthy j then some (none, rest)
    else
      match j with
      | .jobj l =>
        match l.lookup "r" with
        | some v => some (some v, rest)
        | none => read_response rest
      | _ => none

/-- View a response payload as a `{group : fields}` dictionary. -/
def asGroups (v : Json) : Option Store :=
  match v with
  | .jobj l =>
    l.mapM (fun kv =>
      match kv.2 with
      | .jobj f => some (kv.1, f)
      | _ => none)
  | _ => none

/-- One group iteration of `TinyG.read_config`: wait for a response and
merge it when truthy (`if response: config.add_group(response)`). -/
def read_config_group (st : Store) (stream : List Json) : Option (Store × List Json) :=
  match read_response stream with
  | none => none
  | some (resp, rest) =>
    match resp with
    | none => some (st, rest)
    | some v =>
      if jtruthy v then (asGroups v).map (fun gs => (add_group st gs, rest))
      else some (st, rest)

/-- `TinyG.read_config`: query every group of `CONFIG_MAP` in order,
merging each truthy response. -/
def read_config_go (st : Store) (stream : List Json) :
    List (String × String) → Option (Store × List Json)
  | [] => some (st, stream)
  | _ :: rest =>
    match read_config_group st stream with
    | none => none
    | some (st2, s2) => read_config_go st2 s2 rest

/-- `TinyG.read_config` over the whole group mapping. -/
def read_config (st : Store) (stream : List Json) : Option (Store × List Json) :=
  read_config_go st stream CONFIG_MAP

/-- A set command sent to the device: `{group_id : {key : value, ...}}`. -/
abbrev Cmd := String × List (String × Json)

/-- `filtered_config`: the group's fields with its read-only keys removed. -/
def filter_read_only (gid : String) (fields : List (String × Json)) :
    List (String × Json) :=
  match CONFIG_READ_ONLY.lookup gid with
  | some ro => fields.filter (fun kv => !ro.contains kv.1)
  | none => fields

/-- The chunked write loop of `write_config` for one group: send slices of
at most 10 fields; after each send wait for a response; a falsy response
(timeout or falsy `r` payload) takes the failure branch, whose
`print("... failed" % group)` raises `NameError` (`group` is undefined in
`write_config`), aborting everything — flagged by the final `Bool`.
Returns `(commands sent, unconsumed stream, aborted)`.
`fuel ≥ fields.length` makes the recursion total. -/
def chunkGo (gid : String) : Nat → List (String × Json) → List Json →
    Option (List Cmd × List Json × Bool)
  | 0, _, stream => some ([], stream, false)
  | fuel + 1, fs, stream =>
    if fs.isEmpty then some ([], stream, false)
    else
      let cmd : Cmd := (gid, fs.take 10)
      match read_response stream with
      | none => none
      | some (resp, s2) =>
        let ok : Bool := match resp with | some v => jtruthy v | none => false
        if ok then
          match chunkGo gid fuel (fs.drop 10) s2 with
          | none => none
          | some (cs, s3, aborted) => some (cmd :: cs, s3, aborted)
        else some ([cmd], s2, true)

/-- The group loop of `TinyG.write_config`: skip absent or empty groups,
filter read-only keys, write in chunks; the `NameError` on a chunk failure
propagates, so nothing after it runs. -/
def write_config_go (st : Store) : List (String × String) → List Json →
    Option (List Cmd × List Json × Bool)
  | [], stream => some ([], stream, false)
  | me :: rest, stream =>
    match st.lookup me.1 with
    | none => write_config_go st rest stream
    | some fields =>
      if fields.isEmpty then write_config_go st rest stream
      else
        let filtered := filter_read_only me.1 fields
        match chunkGo me.1 filtered.length filtered stream with
        | none => none
        | some (cs, s2, true) => some (cs, s2, true)
        | some (cs, s2, false) =>
          match write_config_go st rest s2 with
          | none => none
          | some (cs2, s3, aborted) => some (cs ++ cs2, s3, aborted)

/-- `TinyG.write_config` over the whole group mapping.  The result is the
list of set commands actually sent, the unconsumed stream, and whether the
`NameError` of the failure branch aborted the operation. -/
def write_config (st : Store) (stream : List Json) :
    Option (List Cmd × List Json × Bool) :=
  write_config_go st CONFIG_MAP stream

/-! ## Shared concrete protocol lines -/

/-- A truthy acknowledgement line `{"r": {"ok": 1}}`. -/
def ack_line : Json := .jobj [("r", .jobj [("ok", .jint 1)])]

/-- An acknowledgement whose `r` payload is the falsy empty object. -/
def empty_ack_line : Json := .jobj [("r", .jobj [])]

/-- A truthy JSON-object line with no top-level `r` key (an unsolicited
status report such as `{"sr": ...}`). -/
def truthy_non_response (j : Json) : Prop :=
  ∃ m, j = Json.jobj m ∧ m ≠ [] ∧ m.lookup "r" = none

/-- Scalar JSON values: integer, float, or string. -/
def jscalar : Json → Bool
  | .jint _ => true
  | .jfloat _ => true
  | .jstr _ => true
  | _ => false

/-- The trim count as the claim words it: one more than the earlier of the
first space and the first decimal point (the decimal point preferred when
it occurs no later than the first space); exactly one character when
neither occurs. -/
def claim_trim_rule (right : List Char) : Nat :=
  match right.findIdx? (· == ' '), right.findIdx? (· == '.') with
  | none, none => 1
  | some sp, none => sp + 1
  | none, some pd => pd + 1
  | some sp, some pd => if pd ≤ sp then pd + 1 else sp + 1

/-- The trim count as the code computes it, worded per the amended claim:
one more than the alignment index — the first space's index, replaced by
the first decimal point's index when that is positive and either no space
occurs or the space occurs strictly later; the index defaults to 1 (so two
characters are trimmed) when there is no space and no positively-placed
decimal point. -/
def amended_trim_rule (right : List Char) : Nat :=
  match right.findIdx? (· == ' '), right.findIdx? (· == '.') with
  | none, none => 2
  | some sp, none => sp + 1
  | none, some pd => if 0 < pd then pd + 1 else 2
  | some sp, some pd => if 0 < pd ∧ 0 < sp ∧ pd < sp then pd + 1 else sp + 1

/-! ## C8 — supporting definitions for the formatting round-trip -/

/-- The fixed-width left column of one printed field, before trimming. -/
def left35 (g mapPfx key descr : String) : List Char :=
  (padTo 5 (fmt_key_of g key) ++ ' ' :: padTo 29 (decorate g mapPfx descr)).take 35

/-- The left column after the bracketed label and its separating space. -/
def restD (g mapPfx key descr : String) : List Char :=
  (left35 g mapPfx key descr).drop ((flat_key g key).data.length + 3)

/-- The literal text a display template appends after its placeholder. -/
def unitPost (units : String) : List Char :=
  match splitTemplate units.data with
  | some (_, _, post) => post
  | none => []

/-- The last character, when present, is not whitespace. -/
def lastNonWs (l : List Char) : Bool :=
  match l.getLast? with
  | some c => !isPySpace c
  | none => true

/-- One field prints, parses back to the same `(group, key)`, and the
reloaded value displays identically. -/
def field_ok (g mapPfx key descr units : String) (v : Json) : Prop :=
  ∃ line right v',
    fmt_line g mapPfx key descr units v = some line ∧
    fmt_right key units v = some right ∧
    parse_line line = some (some ((g, key), v')) ∧
    fmt_right key units v' = some right

/-- The value class of the amended C8: axis modes 0–3, integers below
`10 ^ 15` for the numeric templates, and nonempty whitespace-free
non-numeric strings of at most 20 characters for the `id` field. -/
def val_ok (key units : String) (v : Json) : Prop :=
  if key = "am" then ∃ n : Int, v = Json.jint n ∧ 0 ≤ n ∧ n < 4
  else if units = "{}" then
    ∃ s : String, v = Json.jstr s ∧ s.data ≠ [] ∧ s.data.length ≤ 20 ∧
      (∀ c ∈ s.data, isPySpace c = false) ∧ is_number s.data = false
  else ∃ n : Int, v = Json.jint n ∧ n.natAbs < 10 ^ 15

/-- Decidable per-field check: the flat key is well formed and resolves
back to this `(group, key)`. -/
def flatOkB (g key : String) : Bool :=
  let flat := (flat_key g key).data
  !flat.isEmpty && flat.all (fun c => !isPySpace c) &&
    (match id_to_group_key (flat_key g key) with
     | some p => p.1 == g && p.2 == key
     | none => false)

/-- Decidable per-field check: the left column splits after the label. -/
def leftOkB (g mapPfx key descr : String) : Bool :=
  left35 g mapPfx key descr ==
    ('[' :: ((flat_key g key).data ++ [']'])) ++ ' ' :: restD g mapPfx key descr

/-- Decidable per-field check: no prefix of the description area ever
yields a numeric token. -/
def prefixTokensOkB (D : List Char) : Bool :=
  (List.range (D.length + 1)).all
    (fun j => (pySplit (D.take j)).all (fun t => !is_number t))

/-- Decidable per-field check for the `id` field: every sufficiently long
prefix of the description area splits into exactly `TinyG`, `ID`. -/
def idPrefixOkB (D : List Char) : Bool :=
  (List.range (D.length + 1)).all
    (fun j => decide (j + 21 < D.length + 1) ||
      pySplit (D.take j) == ["TinyG".data, "ID".data])

/-- Decidable check on a template's unit suffix: absent, or a space
followed by text ending in a non-whitespace character. -/
def postOkB (post : List Char) : Bool :=
  post.isEmpty || (post.head? == some ' ' && lastNonWs post)

/-- The whole decidable side condition of the C8 field round-trip. -/
def sideCondB (g mapPfx key descr units : String) : Bool :=
  flatOkB g key && leftOkB g mapPfx key descr &&
    decide (17 ≤ (restD g mapPfx key descr).length) &&
    (if key == "am" then
      ([(0 : Int), 1, 2, 3].all (fun n =>
        match axisModeAt (Json.jint n) with
        | some lab => (fmt_right "am" units (Json.jint n) ==
              some (intRepr n ++ ' ' :: lab.data)) && postOkB (' ' :: lab.data)
        | none => false)) &&
        prefixTokensOkB (restD g mapPfx key descr) && !(flat_key g key == "id")
    else
      match splitTemplate units.data with
      | some (pre, spec, post) =>
        pre.isEmpty &&
          (if spec.isEmpty then
            (g == "sys") && (key == "id") && (units == "{}") &&
              decide (21 ≤ (restD g mapPfx key descr).length) &&
              idPrefixOkB (restD g mapPfx key descr)
          else if spec == ":d".data then
            postOkB post && prefixTokensOkB (restD g mapPfx key descr) &&
              !(flat_key g key == "id")
          else
            (spec.take 2 == [':', '.']) &&
              (let ds := (spec.drop 2).takeWhile isDig
               ((spec.drop 2) == ds ++ ['f']) && !ds.isEmpty && 0 < digitsVal ds) &&
              postOkB post && prefixTokensOkB (restD g mapPfx key descr) &&
              !(flat_key g key == "id"))
      | none => false)

/-- The side condition instantiated over every field of the registry. -/
def all_fields_checkB : Bool :=
  CONFIG_MAP.all (fun me =>
    match CONFIG_STR.lookup me.2 with
    | some strs => strs.all (fun fld => sideCondB me.1 me.2 fld.1 fld.2.1 fld.2.2)
    | none => false)

/-! ## C1 — flat-key resolution round-trips -/

set_option maxRecDepth 10000 in
/-- C1: for every `(group-id, key)` pair reachable via the Group Mapping,
`id_to_group_key` applied to the flat key (`key` bare for `sys`, the
concatenation `group-id ++ key` otherwise) returns exactly that pair — in
particular it never returns `none` on such inputs. -/
theorem c1_flat_key_roundtrip :
    ∀ p ∈ reachable_pairs, id_to_group_key (flat_key p.1 p.2) = some p := by
  decide

set_option maxRecDepth 10000 in
/-- Witness for C1 at the reachable pair `("x", "vm")`. -/
theorem c1_flat_key_roundtrip_witness :
    ("x", "vm") ∈ reachable_pairs ∧
      id_to_group_key (flat_key "x" "vm") = some ("x", "vm") :=
  ⟨by decide, c1_flat_key_roundtrip ("x", "vm") (by decide)⟩

/-! ## C7 — parsing the motor-microsteps example line -/

/-- C7 counterexample: parsing the claim's line
`[1mi]  motor 1 microsteps      8 [1,2,4,8]` stores the integer 1 for
`("1", "mi")` — the first whitespace-delimited numeric token is the bare
`1` of the description, not the 8 the claim names. -/
theorem c7_counterexample :
    read_text ["[1mi]  motor 1 microsteps      8 [1,2,4,8]"] [] =
        some [("1", [("mi", Json.jint 1)])] ∧
      Json.jint 1 ≠ Json.jint 8 :=
  ⟨rfl, by simp⟩

/-- C7 amended: the line's flat key `1mi` resolves to group `1`, key `mi`,
and the stored value is the integer 1 (the first numeric token of the
line's remainder, which is the bare `1` inside `motor 1 microsteps`). -/
theorem c7_amended :
    read_text ["[1mi]  motor 1 microsteps      8 [1,2,4,8]"] [] =
      some [("1", [("mi", Json.jint 1)])] := rfl

/-! ## C6 — read-only filtering at write time -/

/-- C6: writing a store whose `sys` group holds exactly `fb`, `fv`, `id`,
`ja` sends a single set command containing only `ja`: `fb`, `fv` and `id`
are in the `sys` read-only set and are removed before sending. -/
theorem c6_read_only_filter :
    ∀ v1 v2 v3 v4 : Json,
      write_config [("sys", [("fb", v1), ("fv", v2), ("id", v3), ("ja", v4)])]
          [ack_line] =
        some ([("sys", [("ja", v4)])], [], false) := by
  intro v1 v2 v3 v4
  rfl

/-! ## C4 — chunking 23 writable keys into 10 / 10 / 3 -/

/-- C4: a group (here `x`, which has no read-only keys) whose filtered
field set has 23 keys is written as exactly 3 set commands carrying 10, 10
and 3 keys, consecutive slices of the key list; and when the second
chunk's write gets no acknowledgement, the third chunk is never sent. -/
theorem c4_chunking :
    ∀ f1 f2 f3 f4 f5 f6 f7 f8 f9 f10 f11 f12 f13 f14 f15 f16 f17 f18 f19
      f20 f21 f22 f23 : String × Json,
      write_config [("x", [f1, f2, f3, f4, f5, f6, f7, f8, f9, f10, f11, f12,
          f13, f14, f15, f16, f17, f18, f19, f20, f21, f22, f23])]
          [ack_line, ack_line, ack_line] =
        some ([("x", [f1, f2, f3, f4, f5, f6, f7, f8, f9, f10]),
               ("x", [f11, f12, f13, f14, f15, f16, f17, f18, f19, f20]),
               ("x", [f21, f22, f23])], [], false) ∧
      write_config [("x", [f1, f2, f3, f4, f5, f6, f7, f8, f9, f10, f11, f12,
          f13, f14, f15, f16, f17, f18, f19, f20, f21, f22, f23])]
          [ack_line] =
        some ([("x", [f1, f2, f3, f4, f5, f6, f7, f8, f9, f10]),
               ("x", [f11, f12, f13, f14, f15, f16, f17, f18, f19, f20])],
              [], true) := by
  intro f1 f2 f3 f4 f5 f6 f7 f8 f9 f10 f11 f12 f13 f14 f15 f16 f17 f18 f19
    f20 f21 f22 f23
  exact ⟨rfl, rfl⟩

/-! ## C5 — a chunk timeout aborts everything (code bug) -/

/-- C5: evaluating `write_config` on a store holding groups `x` and `y`
with no acknowledgement to the first chunk: the failure branch is taken
(its `print` raises `NameError`: the method's variable is `group_id`, not
`group`), the operation aborts, and group `y` is never written — the code
does not report and move on to the next group as the spec states. -/
theorem c5_chunk_failure_aborts :
    write_config [("x", [("vm", Json.jint 500)]), ("y", [("vm", Json.jint 600)])]
        [] =
      some ([("x", [("vm", Json.jint 500)])], [], true) := rfl

/-! ## C3 / C10 — response waiting -/



/-- `read_response` discards a truthy object line without an `r` key. -/
theorem read_response_skip (m : List (String × Json)) (s : List Json)
    (hne : m ≠ []) (hr : m.lookup "r" = none) :
    read_response (Json.jobj m :: s) = read_response s := by
  cases m with
  | nil => cases hne rfl
  | cons a t => simp [read_response, jtruthy, hr]

/-- `read_response` returns the `r` value of the first line carrying one
(truthy or not). -/
theorem read_response_hit (m : List (String × Json)) (v : Json) (s : List Json)
    (hr : m.lookup "r" = some v) :
    read_response (Json.jobj m :: s) = some (some v, s) := by
  cases m with
  | nil => simp [List.lookup] at hr
  | cons a t => simp [read_response, jtruthy, hr]

/-- A skipped status line leaves a group read unchanged. -/
theorem read_config_group_skip (st : Store) (m : List (String × Json))
    (s : List Json) (hne : m ≠ []) (hnr : m.lookup "r" = none) :
    read_config_group st (Json.jobj m :: s) = read_config_group st s := by
  unfold read_config_group
  rw [read_response_skip m s hne hnr]

/-- C3 counterexample: a received falsy JSON line — the empty object, which
lacks an `r` key — is not discarded: it ends the wait like a timeout, so
the following `r` line is never read and nothing is merged, where the
claim predicts the `{}` line is skipped and `{"x": {"vm": 500}}` merged. -/
theorem c3_counterexample :
    read_config_group []
        [Json.jobj [],
         Json.jobj [("r", Json.jobj [("x", Json.jobj [("vm", Json.jint 500)])])]] =
      some ([], [Json.jobj [("r", Json.jobj [("x", Json.jobj [("vm", Json.jint 500)])])]]) ∧
    ([] : Store) ≠ [("x", [("vm", Json.jint 500)])] :=
  ⟨rfl, by simp⟩

/-- C3 amended: during a per-group read, every received *truthy* JSON line
lacking a top-level `r` key is discarded and waiting continues (a falsy
line such as `{}` instead ends the wait like a timeout); the first line
containing an `r` key ends the wait and its `r` value, when it is an
object of objects, determines the merge (`add_group` of the payload — a
no-op for the falsy `{}` payload); when the stream runs out (timeout)
nothing is merged; `read_config` continues with the remaining groups after
a per-group timeout; and on the claim's example stream only the second
line's payload is merged. -/
theorem c3_amended :
    (∀ (st : Store) (pre rest : List Json) (m : List (String × Json))
        (v : Json) (gs : Store),
      (∀ x ∈ pre, truthy_non_response x) →
      m.lookup "r" = some v → asGroups v = some gs →
      read_config_group st (pre ++ Json.jobj m :: rest) =
        some (add_group st gs, rest)) ∧
    (∀ (st : Store) (s : List Json),
      (∀ x ∈ s, truthy_non_response x) →
      read_config_group st s = some (st, [])) ∧
    (read_config []
        [Json.jobj [],
         Json.jobj [("r", Json.jobj [("1", Json.jobj [("mi", Json.jint 8)])])]] =
      some ([("1", [("mi", Json.jint 8)])], [])) ∧
    (read_config_group []
        [Json.jobj [("sr", Json.jobj [("posx", Json.jfloat 1)])],
         Json.jobj [("r", Json.jobj [("x", Json.jobj [("vm", Json.jint 500)])])]] =
      some ([("x", [("vm", Json.jint 500)])], [])) := by
  refine ⟨?_, ?_, rfl, rfl⟩
  · intro st pre rest m v gs hpre hr hgs
    induction pre with
    | nil =>
      rw [List.nil_append]
      unfold read_config_group
      rw [read_response_hit m v rest hr]
      by_cases hv : jtruthy v = true
      · simp [hv, hgs]
      · have hvo : ∃ l, v = Json.jobj l := by
          cases v <;> first | exact ⟨_, rfl⟩ | simp [asGroups] at hgs
        obtain ⟨l, rfl⟩ := hvo
        cases l with
        | cons a t => simp [jtruthy] at hv
        | nil =>
          have h0 : (some ([] : Store) : Option Store) = some gs := hgs
          obtain rfl : gs = [] := (Option.some.inj h0).symm
          rfl
    | cons x pre ih =>
      obtain ⟨m', hxeq, hne, hnr⟩ := hpre x (List.mem_cons_self x pre)
      subst hxeq
      rw [List.cons_append, read_config_group_skip st m' _ hne hnr]
      exact ih (fun y hy => hpre y (List.mem_cons_of_mem _ hy))
  · intro st s hs
    induction s with
    | nil => rfl
    | cons x s ih =>
      obtain ⟨m', hxeq, hne, hnr⟩ := hs x (List.mem_cons_self x s)
      subst hxeq
      rw [read_config_group_skip st m' _ hne hnr]
      exact ih (fun y hy => hs y (List.mem_cons_of_mem _ hy))

/-- Witness for C3 amended, at the claim's example: the `sr` status line is
discarded and the `r` line's payload merged. -/
theorem c3_amended_witness :
    read_config_group []
        [Json.jobj [("sr", Json.jobj [("posx", Json.jfloat 1)])],
         Json.jobj [("r", Json.jobj [("x", Json.jobj [("vm", Json.jint 500)])])]] =
      some (add_group [] [("x", [("vm", Json.jint 500)])], []) :=
  c3_amended.1 [] [Json.jobj [("sr", Json.jobj [("posx", Json.jfloat 1)])]] []
    [("r", Json.jobj [("x", Json.jobj [("vm", Json.jint 500)])])]
    (Json.jobj [("x", Json.jobj [("vm", Json.jint 500)])])
    [("x", [("vm", Json.jint 500)])]
    (by
      intro x hx
      rw [List.mem_singleton] at hx
      subst hx
      exact ⟨_, rfl, by simp, rfl⟩)
    rfl rfl

/-- C10 counterexample: with the stream `[{"r": {}}, {"r": {"ok": 1}}]` and
a store holding an 11-field group `x` (two chunks) and a group `y`, the
falsy `r` acknowledgement to `x`'s first chunk takes the failure branch,
which raises `NameError` instead of printing a report: the run aborts with
only `x`'s first chunk sent.  The claim's reading — the failure is reported
and only this group's remaining chunks are abandoned, the operation
continuing like the recoverable timeout it mimics — would have sent `y`'s
command and completed normally. -/
theorem c10_counterexample :
    write_config
        [("x", [("am", Json.jint 1), ("vm", Json.jint 2), ("fr", Json.jint 3),
                ("tn", Json.jint 4), ("tm", Json.jint 5), ("jm", Json.jint 6),
                ("jh", Json.jint 7), ("jd", Json.jint 8), ("sn", Json.jint 9),
                ("sx", Json.jint 10), ("sv", Json.jint 11)]),
         ("y", [("vm", Json.jint 600)])]
        [empty_ack_line, ack_line] =
      some ([("x", [("am", Json.jint 1), ("vm", Json.jint 2), ("fr", Json.jint 3),
                    ("tn", Json.jint 4), ("tm", Json.jint 5), ("jm", Json.jint 6),
                    ("jh", Json.jint 7), ("jd", Json.jint 8), ("sn", Json.jint 9),
                    ("sx", Json.jint 10)])],
            [ack_line], true) ∧
    (some ([("x", [("am", Json.jint 1), ("vm", Json.jint 2), ("fr", Json.jint 3),
                   ("tn", Json.jint 4), ("tm", Json.jint 5), ("jm", Json.jint 6),
                   ("jh", Json.jint 7), ("jd", Json.jint 8), ("sn", Json.jint 9),
                   ("sx", Json.jint 10)])],
           ([ack_line] : List Json), true) ≠
       some ([("x", [("am", Json.jint 1), ("vm", Json.jint 2), ("fr", Json.jint 3),
                     ("tn", Json.jint 4), ("tm", Json.jint 5), ("jm", Json.jint 6),
                     ("jh", Json.jint 7), ("jd", Json.jint 8), ("sn", Json.jint 9),
                     ("sx", Json.jint 10)]),
              ("x", [("sv", Json.jint 11)]),
              ("y", [("vm", Json.jint 600)])],
             ([] : List Json), false)) :=
  ⟨rfl, by simp⟩

/-- C10 amended: a reply line whose top-level `r` value is falsy (for
example `{}`) makes `read_response` return that falsy payload, and the
callers treat the exchange exactly like a timeout: `read_config` merges
nothing into the store for that group, and `write_config` takes the same
failure branch as a timeout — which, because its report statement raises
`NameError` on the undefined name `group`, sends none of the group's
remaining chunks and aborts the rest of the operation without reporting —
even though an acknowledgement line with an `r` key was received. -/
theorem c10_amended :
    (∀ (m : List (String × Json)) (v : Json) (rest : List Json),
      m.lookup "r" = some v →
      read_response (Json.jobj m :: rest) = some (some v, rest)) ∧
    (∀ (st : Store) (m : List (String × Json)) (v : Json) (rest : List Json),
      m.lookup "r" = some v → jtruthy v = false →
      read_config_group st (Json.jobj m :: rest) = some (st, rest)) ∧
    (write_config
        [("x", [("am", Json.jint 1), ("vm", Json.jint 2), ("fr", Json.jint 3),
                ("tn", Json.jint 4), ("tm", Json.jint 5), ("jm", Json.jint 6),
                ("jh", Json.jint 7), ("jd", Json.jint 8), ("sn", Json.jint 9),
                ("sx", Json.jint 10), ("sv", Json.jint 11)]),
         ("y", [("vm", Json.jint 600)])]
        [empty_ack_line, ack_line] =
      some ([("x", [("am", Json.jint 1), ("vm", Json.jint 2), ("fr", Json.jint 3),
                    ("tn", Json.jint 4), ("tm", Json.jint 5), ("jm", Json.jint 6),
                    ("jh", Json.jint 7), ("jd", Json.jint 8), ("sn", Json.jint 9),
                    ("sx", Json.jint 10)])],
            [ack_line], true)) := by
  refine ⟨fun m v rest hr => read_response_hit m v rest hr, ?_, rfl⟩
  intro st m v rest hr hv
  unfold read_config_group
  rw [read_response_hit m v rest hr]
  simp [hv]

/-- Witness for C10 amended at the payload `{}`. -/
theorem c10_amended_witness :
    read_response [empty_ack_line] = some (some (Json.jobj []), []) ∧
      read_config_group [("sys", [("mt", Json.jint 7)])] [empty_ack_line] =
        some ([("sys", [("mt", Json.jint 7)])], []) :=
  ⟨c10_amended.1 [("r", Json.jobj [])] (Json.jobj []) [] rfl,
   c10_amended.2.1 [("sys", [("mt", Json.jint 7)])] [("r", Json.jobj [])]
     (Json.jobj []) [] rfl rfl⟩

/-! ## C2 — JSON round-trip -/



/-- `addOne` walks past a non-matching group. -/
theorem addOne_cons_ne (g2 : String) (f2 : List (String × Json)) (rest : Store)
    (g : String) (f : List (String × Json)) (h : g2 ≠ g) :
    addOne ((g2, f2) :: rest) g f = (g2, f2) :: addOne rest g f := by
  simp [addOne, beq_eq_false_iff_ne.mpr h]

/-- `addOne` updates a matching group in place. -/
theorem addOne_cons_eq (g2 : String) (f2 : List (String × Json)) (rest : Store)
    (f : List (String × Json)) :
    addOne ((g2, f2) :: rest) g2 f = (g2, dictUpdate f2 f) :: rest := by
  simp [addOne]

/-- Merging a fresh group appends it. -/
theorem addOne_of_not_mem (st : Store) (g : String) (f : List (String × Json))
    (h : g ∉ st.map Prod.fst) : addOne st g f = st ++ [(g, f)] := by
  induction st with
  | nil => rfl
  | cons e rest ih =>
    cases e with
    | mk g2 f2 =>
      have hne : g2 ≠ g := by
        intro hEq
        exact h (by simp [hEq])
      rw [addOne_cons_ne g2 f2 rest g f hne, List.cons_append,
        ih (fun hm => h (List.mem_cons_of_mem _ hm))]

/-- The group keys after one merge step. -/
theorem addOne_keys (st : Store) (g : String) (f : List (String × Json)) :
    (addOne st g f).map Prod.fst =
      if g ∈ st.map Prod.fst then st.map Prod.fst
      else st.map Prod.fst ++ [g] := by
  induction st with
  | nil => rfl
  | cons e rest ih =>
    cases e with
    | mk g2 f2 =>
      by_cases hEq : g2 = g
      · subst hEq
        simp [addOne_cons_eq]
      · rw [addOne_cons_ne g2 f2 rest g f hEq, List.map_cons, List.map_cons, ih]
        by_cases hm : g ∈ rest.map Prod.fst
        · rw [if_pos hm, if_pos (by simp [hm])]
        · rw [if_neg hm, if_neg (by simp [hm, Ne.symm hEq]), List.cons_append]

/-- `add_group` preserves distinctness of the store's group keys. -/
theorem add_group_keys_nodup (d : Store) :
    ∀ st : Store, (st.map Prod.fst).Nodup → ((add_group st d).map Prod.fst).Nodup := by
  induction d with
  | nil => exact fun st h => h
  | cons e rest ih =>
    intro st h
    have hstep : ((addOne st e.1 e.2).map Prod.fst).Nodup := by
      rw [addOne_keys]
      by_cases hm : e.1 ∈ st.map Prod.fst
      · simpa [hm] using h
      · simp only [hm, if_false]
        exact List.Nodup.append h (List.nodup_singleton e.1)
          (by simpa [List.disjoint_singleton] using hm)
    exact ih (addOne st e.1 e.2) hstep

/-- A store built by any sequence of `add_group` calls has distinct group
keys. -/
theorem built_store_keys_nodup (inputs : List Store) :
    ((inputs.foldl add_group []).map Prod.fst).Nodup := by
  suffices h : ∀ st : Store, (st.map Prod.fst).Nodup →
      ((inputs.foldl add_group st).map Prod.fst).Nodup by
    exact h [] List.nodup_nil
  induction inputs with
  | nil => exact fun st h => h
  | cons d rest ih =>
    intro st h
    exact ih (add_group st d) (add_group_keys_nodup d st h)

/-- Reading back the written document appends the groups in order onto the
accumulator, when the written group keys are distinct and fresh. -/
theorem read_doc_go_write (s : Store) :
    ∀ acc : Store,
      (∀ g ∈ s.map Prod.fst, g ∉ acc.map Prod.fst) →
      (s.map Prod.fst).Nodup →
      read_doc_go acc (s.map fun e => (e.1, Json.jobj e.2)) = some (acc ++ s) := by
  induction s with
  | nil => intro acc _ _; simp [read_doc_go]
  | cons e rest ih =>
    intro acc hfresh hnd
    cases e with
    | mk g f =>
      have h1 : addOne acc g f = acc ++ [(g, f)] :=
        addOne_of_not_mem acc g f (hfresh g (by simp))
      have h2 : ∀ g' ∈ rest.map Prod.fst, g' ∉ (acc ++ [(g, f)]).map Prod.fst := by
        intro g' hg' hmem
        rw [List.map_append] at hmem
        rcases List.mem_append.mp hmem with hA | hB
        · exact hfresh g' (List.mem_cons_of_mem _ hg') hA
        · have : g' = g := by simpa using hB
          subst this
          exact (List.nodup_cons.mp (by simpa using hnd)).1 hg'
      calc read_doc_go acc (((g, f) :: rest).map fun e => (e.1, Json.jobj e.2))
          = read_doc_go (addOne acc g f) (rest.map fun e => (e.1, Json.jobj e.2)) := rfl
        _ = some ((acc ++ [(g, f)]) ++ rest) := by
            rw [h1]
            exact ih (acc ++ [(g, f)]) h2 (List.nodup_cons.mp (by simpa using hnd)).2
        _ = some (acc ++ (g, f) :: rest) := by rw [List.append_assoc]; rfl

/-- C2: a store built by any sequence of `add_group` calls whose inputs are
Python dicts (distinct keys at both levels) with scalar values, serialized
with `Config.write` and read back with `Config.read` into a fresh empty
store, is reproduced exactly. -/
theorem c2_json_roundtrip :
    ∀ inputs : List Store,
      (∀ d ∈ inputs, (d.map Prod.fst).Nodup) →
      (∀ d ∈ inputs, ∀ grp ∈ d, (grp.2.map Prod.fst).Nodup) →
      (∀ d ∈ inputs, ∀ grp ∈ d, ∀ kv ∈ grp.2, jscalar kv.2 = true) →
      read_doc (write (inputs.foldl add_group [])) [] =
        some (inputs.foldl add_group []) := by
  intro inputs _ _ _
  have hnd := built_store_keys_nodup inputs
  have h := read_doc_go_write (inputs.foldl add_group []) [] (by simp) hnd
  simpa [write, read_doc] using h

/-- Witness for C2 on two merge steps with integer, float and string
values. -/
theorem c2_json_roundtrip_witness :
    read_doc
        (write ([[("x", [("vm", Json.jint 500)])],
                 [("sys", [("mt", Json.jfloat (5 / 2)), ("id", Json.jstr "2X")]),
                  ("x", [("fr", Json.jint 100)])]].foldl add_group [])) [] =
      some ([[("x", [("vm", Json.jint 500)])],
             [("sys", [("mt", Json.jfloat (5 / 2)), ("id", Json.jstr "2X")]),
              ("x", [("fr", Json.jint 100)])]].foldl add_group []) :=
  c2_json_roundtrip
    [[("x", [("vm", Json.jint 500)])],
     [("sys", [("mt", Json.jfloat (5 / 2)), ("id", Json.jstr "2X")]),
      ("x", [("fr", Json.jint 100)])]]
    (by decide) (by decide) (by decide)

/-! ## C9 — the column-alignment trim rule -/



/-- The code's trim count agrees with the corrected alignment rule
(shared between the C8 and C9 developments). -/
theorem trim_count_eq_rule :
    ∀ right : List Char, trim_count right = amended_trim_rule right := by
  intro right
  unfold trim_count align_of amended_trim_rule pyFind
  cases h1 : right.findIdx? (· == ' ') <;>
    cases h2 : right.findIdx? (· == '.') <;>
      simp only [Bool.and_eq_true, Bool.or_eq_true, decide_eq_true_eq] <;>
        split_ifs <;> omega

/-- C9 counterexample: the field `sys.sl` with value 5 is printed with
rendered value string `"5"`, which contains neither a space nor a decimal
point; the code trims two trailing characters from the label column
(`align` defaults to 1 and `left[:-(align+1)]` removes `align + 1`), not
the one character the claim states. -/
theorem c9_counterexample :
    fmt_right "sl" "{:d}" (Json.jint 5) = some ['5'] ∧
      dump_formatted [("sys", [("sl", Json.jint 5)])] =
        some ["[sl]  soft limit enable           5"] ∧
      trim_count ['5'] = 2 ∧
      claim_trim_rule ['5'] = 1 ∧
      trim_count ['5'] ≠ claim_trim_rule ['5'] :=
  ⟨rfl, rfl, rfl, rfl, by decide⟩

/-- C9 amended: for every rendered value string (hence for every field
printed by `dump_formatted`, whose line builder uses `trim_count`), the
number of trailing characters trimmed from the label column is one more
than the first space's index, replaced by the first decimal point's index
when that is positive and earlier than any space; with no space and no
positively-placed decimal point, exactly two characters are trimmed. -/
theorem c9_amended : ∀ right : List Char, trim_count right = amended_trim_rule right :=
  trim_count_eq_rule

/-! ## C8 — supporting lemmas: characters -/

/-- A digit is not `beq`-equal to any non-digit character. -/
theorem isDig_beq_false (c d : Char) (h : isDig c = true) (hd : isDig d = false) :
    (c == d) = false :=
  beq_eq_false_iff_ne.mpr (fun he => by rw [he] at h; rw [h] at hd; exact Bool.noConfusion hd)

/-- Digits are not whitespace. -/
theorem isDig_not_space (c : Char) (h : isDig c = true) : isPySpace c = false := by
  unfold isPySpace
  rw [isDig_beq_false c ' ' h (by decide), isDig_beq_false c '\t' h (by decide),
    isDig_beq_false c '\n' h (by decide), isDig_beq_false c '\r' h (by decide),
    isDig_beq_false c '\x0b' h (by decide), isDig_beq_false c '\x0c' h (by decide)]
  rfl

/-- The code point of a digit. -/
theorem isDig_toNat (c : Char) (h : isDig c = true) : 47 < c.toNat ∧ c.toNat < 58 := by
  simpa [isDig] using h

/-- Lowercasing does not change a digit. -/
theorem toLower_digit (c : Char) (h : isDig c = true) : c.toLower = c := by
  have h' := isDig_toNat c h
  unfold Char.toLower
  rw [if_neg]
  omega

/-- Digit characters produced by the renderer. -/
theorem digitChar_toNat (k : Nat) (h : k < 10) : (Char.ofNat (k + 48)).toNat = k + 48 := by
  interval_cases k <;> rfl

/-- Rendered digit characters satisfy `isDig`. -/
theorem digitChar_isDig (k : Nat) (h : k < 10) : isDig (Char.ofNat (k + 48)) = true := by
  interval_cases k <;> rfl

/-! ## C8 — supporting lemmas: `pySplit` and `pyStrip` -/

/-- Splitting distributes over an explicit space separator. -/
theorem pySplitGo_append_space (b : List Char) :
    ∀ (a acc : List Char),
      pySplitGo (a ++ ' ' :: b) acc = pySplitGo a acc ++ pySplitGo b [] := by
  intro a
  induction a with
  | nil => intro acc; cases acc <;> simp [pySplitGo, isPySpace]
  | cons c a' ih =>
    intro acc
    by_cases hc : isPySpace c = true
    · cases acc <;> simp [pySplitGo, hc, ih]
    · have hc' : isPySpace c = false := by simpa using hc
      simp [pySplitGo, hc', ih]

/-- Splitting a line at its separating space. -/
theorem pySplit_append_space (a b : List Char) :
    pySplit (a ++ ' ' :: b) = pySplit a ++ pySplit b := by
  unfold pySplit
  exact pySplitGo_append_space b a []

/-- A run without whitespace is one token (with the pending accumulator). -/
theorem pySplitGo_no_space (t : List Char) :
    ∀ acc : List Char, (∀ c ∈ t, isPySpace c = false) →
      pySplitGo t acc =
        if acc.isEmpty && t.isEmpty then [] else [acc.reverse ++ t] := by
  induction t with
  | nil => intro acc _; cases acc <;> simp [pySplitGo]
  | cons c t' ih =>
    intro acc h
    have hc : isPySpace c = false := h c (by simp)
    have ht' : ∀ x ∈ t', isPySpace x = false := fun x hx => h x (by simp [hx])
    simp [pySplitGo, hc, ih (c :: acc) ht']

/-- A nonempty whitespace-free run is exactly one token. -/
theorem pySplit_token (t : List Char) (hne : t ≠ [])
    (h : ∀ c ∈ t, isPySpace c = false) : pySplit t = [t] := by
  unfold pySplit
  rw [pySplitGo_no_space t [] h]
  cases t with
  | nil => cases hne rfl
  | cons c t' => rfl

/-- `str.strip()` is the identity when both ends are not whitespace. -/
theorem pyStrip_id (l : List Char)
    (h1 : ∀ c, l.head? = some c → isPySpace c = false)
    (h2 : ∀ c, l.getLast? = some c → isPySpace c = false) : pyStrip l = l := by
  unfold pyStrip
  have d1 : l.dropWhile isPySpace = l := by
    cases l with
    | nil => rfl
    | cons c t => rw [List.dropWhile_cons, if_neg (by simp [h1 c rfl])]
  rw [d1]
  have d2 : l.reverse.dropWhile isPySpace = l.reverse := by
    cases hr : l.reverse with
    | nil => rfl
    | cons c t =>
      have hg : l.getLast? = some c := by
        rw [← List.head?_reverse, hr]
        rfl
      rw [List.dropWhile_cons, if_neg (by simp [h2 c hg])]
  rw [d2, List.reverse_reverse]

/-- `str.strip()` is the identity on a whitespace-free string. -/
theorem pyStrip_id_of_all (l : List Char) (h : ∀ c ∈ l, isPySpace c = false) :
    pyStrip l = l :=
  pyStrip_id l (fun c hc => h c (List.mem_of_mem_head? (by rw [hc]; rfl)))
    (fun c hc => by
      obtain ⟨hne, rfl⟩ := List.mem_getLast?_eq_getLast (by rw [Option.mem_def]; exact hc)
      exact h _ (List.getLast_mem hne))

/-! ## C8 — supporting lemmas: decimal numerals -/

/-- A crude but sufficient fuel bound. -/
theorem n_lt_ten_pow (n : Nat) : n < 10 ^ (n + 1) := by
  have h1 : n < 10 ^ n := Nat.lt_pow_self (by norm_num) n
  have h2 : 10 ^ n ≤ 10 ^ (n + 1) := Nat.pow_le_pow_right (by norm_num) (by omega)
  omega

/-- The accumulator of `natReprGo` is just appended. -/
theorem natReprGo_append (fuel : Nat) :
    ∀ (n : Nat) (acc : List Char),
      natReprGo fuel n acc = natReprGo fuel n [] ++ acc := by
  induction fuel with
  | zero => intro n acc; rfl
  | succ fuel ih =>
    intro n acc
    by_cases h : n < 10
    · simp [natReprGo, h]
    · simp only [natReprGo, if_neg h]
      conv_lhs => rw [ih]
      conv_rhs => rw [ih]
      rw [List.append_assoc]
      rfl

/-- Any sufficient fuel renders the same digits. -/
theorem natReprGo_fuel (f1 : Nat) :
    ∀ (f2 n : Nat) (acc : List Char), 0 < f1 → n < 10 ^ f1 → 0 < f2 → n < 10 ^ f2 →
      natReprGo f1 n acc = natReprGo f2 n acc := by
  induction f1 with
  | zero => intro f2 n acc h _ _ _; omega
  | succ a ih =>
    intro f2 n acc _ hn1 hf2 hn2
    cases f2 with
    | zero => omega
    | succ b =>
      by_cases h : n < 10
      · simp [natReprGo, h]
      · simp only [natReprGo, if_neg h]
        have ha : 0 < a := by
          rcases Nat.eq_zero_or_pos a with h0 | h0
          · subst h0; simp [pow_one] at hn1; omega
          · exact h0
        have hb : 0 < b := by
          rcases Nat.eq_zero_or_pos b with h0 | h0
          · subst h0; simp [pow_one] at hn2; omega
          · exact h0
        have hna : n / 10 < 10 ^ a := by
          have : n < 10 ^ a * 10 := by rw [← pow_succ]; exact hn1
          omega
        have hnb : n / 10 < 10 ^ b := by
          have : n < 10 ^ b * 10 := by rw [← pow_succ]; exact hn2
          omega
        exact ih b (n / 10) _ ha hna hb hnb

/-- `natRepr` with any sufficient fuel. -/
theorem natRepr_eq_go (fuel n : Nat) (h1 : 0 < fuel) (h2 : n < 10 ^ fuel) :
    natRepr n = natReprGo fuel n [] :=
  natReprGo_fuel (n + 1) fuel n [] (by omega) (n_lt_ten_pow n) h1 h2

/-- Every character `natReprGo` emits is a digit (or comes from `acc`). -/
theorem natReprGo_digits (fuel : Nat) :
    ∀ (n : Nat) (acc : List Char), (∀ c ∈ acc, isDig c = true) →
      ∀ c ∈ natReprGo fuel n acc, isDig c = true := by
  induction fuel with
  | zero => intro n acc hacc c hc; exact hacc c hc
  | succ fuel ih =>
    intro n acc hacc c hc
    have hd : isDig (Char.ofNat (n % 10 + '0'.toNat)) = true := by
      have : ('0'.toNat : Nat) = 48 := rfl
      rw [this]
      exact digitChar_isDig (n % 10) (Nat.mod_lt _ (by norm_num))
    by_cases h : n < 10
    · simp only [natReprGo, if_pos h] at hc
      rcases List.mem_cons.mp hc with rfl | hc'
      · exact hd
      · exact hacc c hc'
    · simp only [natReprGo, if_neg h] at hc
      refine ih (n / 10) _ ?_ c hc
      intro x hx
      rcases List.mem_cons.mp hx with rfl | hx'
      · exact hd
      · exact hacc x hx'

/-- Every character of `natRepr n` is a digit. -/
theorem natRepr_digits (n : Nat) : ∀ c ∈ natRepr n, isDig c = true :=
  natReprGo_digits (n + 1) n [] (by simp)

/-- `natRepr` is never empty. -/
theorem natRepr_ne_nil (n : Nat) : natRepr n ≠ [] := by
  unfold natRepr
  by_cases h : n < 10
  · simp [natReprGo, h]
  · simp only [natReprGo, if_neg h]
    rw [natReprGo_append]
    simp

/-- Folding the digit accumulator over the rendered digits recovers `n`. -/
theorem digitsVal_go (fuel : Nat) :
    ∀ (n : Nat) (acc : List Char), 0 < fuel → n < 10 ^ fuel →
      List.foldl (fun a c => a * 10 + (c.toNat - '0'.toNat)) 0 (natReprGo fuel n acc) =
        List.foldl (fun a c => a * 10 + (c.toNat - '0'.toNat)) n acc := by
  induction fuel with
  | zero => intro n acc h _; omega
  | succ a ih =>
    intro n acc _ hn
    have hdval : (Char.ofNat (n % 10 + '0'.toNat)).toNat - '0'.toNat = n % 10 := by
      have h0 : ('0'.toNat : Nat) = 48 := rfl
      rw [h0, digitChar_toNat (n % 10) (Nat.mod_lt _ (by norm_num))]
      omega
    by_cases h : n < 10
    · simp only [natReprGo, if_pos h, List.foldl_cons, hdval]
      have : 0 * 10 + n % 10 = n := by omega
      rw [this]
    · simp only [natReprGo, if_neg h]
      have ha : 0 < a := by
        rcases Nat.eq_zero_or_pos a with h0 | h0
        · subst h0; simp [pow_one] at hn; omega
        · exact h0
      have hna : n / 10 < 10 ^ a := by
        have : n < 10 ^ a * 10 := by rw [← pow_succ]; exact hn
        omega
      rw [ih (n / 10) _ ha hna, List.foldl_cons, hdval]
      have : n / 10 * 10 + n % 10 = n := by omega
      rw [this]

/-- Parsing the decimal rendering of `n` gives back `n`. -/
theorem digitsVal_natRepr (n : Nat) : digitsVal (natRepr n) = n := by
  unfold digitsVal natRepr
  rw [digitsVal_go (n + 1) n [] (by omega) (n_lt_ten_pow n)]
  rfl

/-- Appending one factor of ten appends one zero digit. -/
theorem natRepr_mul_ten (m : Nat) (h : m ≠ 0) :
    natRepr (m * 10) = natRepr m ++ ['0'] := by
  have h10 : ¬ (m * 10 < 10) := by omega
  have e0 : Char.ofNat (m * 10 % 10 + '0'.toNat) = '0' := by
    have : m * 10 % 10 = 0 := by omega
    rw [this]
    rfl
  have ediv : m * 10 / 10 = m := by omega
  unfold natRepr
  simp only [natReprGo, if_neg h10, e0, ediv]
  rw [natReprGo_append]
  congr 1
  exact (natRepr_eq_go (m * 10) m (by omega)
    (by
      have h1 : m < 10 ^ (m + 1) := n_lt_ten_pow m
      have h2 : 10 ^ (m + 1) ≤ 10 ^ (m * 10) := Nat.pow_le_pow_right (by norm_num) (by omega)
      omega)).symm

/-- Rendering `a * 10 ^ N` appends `N` zero digits. -/
theorem natRepr_mul_pow_ten (a N : Nat) (h : a ≠ 0) :
    natRepr (a * 10 ^ N) = natRepr a ++ List.replicate N '0' := by
  induction N with
  | zero => simp
  | succ N ih =>
    have e : a * 10 ^ (N + 1) = (a * 10 ^ N) * 10 := by ring
    rw [e, natRepr_mul_ten _ (by positivity), ih, List.append_assoc,
      ← List.replicate_succ' N '0']

/-- A run of zero digits parses to zero. -/
theorem digitsVal_replicate_zero (N : Nat) : digitsVal (List.replicate N '0') = 0 := by
  induction N with
  | zero => rfl
  | succ N ih => simpa [digitsVal, List.replicate_succ] using ih

/-! ## C8 — supporting lemmas: parsing rendered numerals -/

/-- Characters of a rendered integer. -/
theorem intRepr_chars (n : Int) : ∀ c ∈ intRepr n, c = '-' ∨ isDig c = true := by
  cases n with
  | ofNat m => exact fun c hc => Or.inr (natRepr_digits m c hc)
  | negSucc m =>
    intro c hc
    rcases List.mem_cons.mp hc with rfl | hc'
    · exact Or.inl rfl
    · exact Or.inr (natRepr_digits _ c hc')

/-- A rendered integer contains no whitespace. -/
theorem intRepr_no_space (n : Int) : ∀ c ∈ intRepr n, isPySpace c = false := by
  intro c hc
  rcases intRepr_chars n c hc with rfl | h
  · rfl
  · exact isDig_not_space c h

/-- A rendered integer contains no space character. -/
theorem intRepr_no_space_char (n : Int) : ∀ c ∈ intRepr n, (c == ' ') = false := by
  intro c hc
  rcases intRepr_chars n c hc with rfl | h
  · rfl
  · exact isDig_beq_false c ' ' h (by decide)

/-- A rendered integer contains no period. -/
theorem intRepr_no_period (n : Int) : ∀ c ∈ intRepr n, (c == '.') = false := by
  intro c hc
  rcases intRepr_chars n c hc with rfl | h
  · rfl
  · exact isDig_beq_false c '.' h (by decide)

/-- A rendered integer is nonempty. -/
theorem intRepr_ne_nil (n : Int) : intRepr n ≠ [] := by
  cases n with
  | ofNat m => exact natRepr_ne_nil m
  | negSucc m => simp [intRepr]

/-- Nonempty all-digit strings satisfy `digitsOnly`. -/
theorem digitsOnly_of (l : List Char) (hne : l ≠ []) (h : ∀ c ∈ l, isDig c = true) :
    digitsOnly l = true := by
  cases l with
  | nil => cases hne rfl
  | cons c t =>
    simp only [digitsOnly, List.isEmpty_cons, Bool.not_false, Bool.true_and]
    exact List.all_eq_true.mpr h

/-- One non-digit member refutes `digitsOnly`. -/
theorem digitsOnly_false_of_mem (l : List Char) (c : Char) (hc : c ∈ l)
    (h : isDig c = false) : digitsOnly l = false := by
  have hall : l.all isDig = false := by
    by_contra hcon
    have htrue : l.all isDig = true := by revert hcon; cases l.all isDig <;> simp
    exact absurd (List.all_eq_true.mp htrue c hc) (by simp [h])
  simp [digitsOnly, hall]

/-- Take/drop of a digit run stops at the first non-digit. -/
theorem takeWhile_append_stop (p : Char → Bool) (xs : List Char) (y : Char)
    (ys : List Char) (hxs : ∀ c ∈ xs, p c = true) (hy : p y = false) :
    (xs ++ y :: ys).takeWhile p = xs ∧ (xs ++ y :: ys).dropWhile p = y :: ys := by
  induction xs with
  | nil => simp [List.takeWhile_cons, List.dropWhile_cons, hy]
  | cons a xs ih =>
    have ha : p a = true := hxs a (by simp)
    have ih' := ih (fun c hc => hxs c (by simp [hc]))
    simp [List.takeWhile_cons, List.dropWhile_cons, ha, ih'.1, ih'.2]

/-- Dropping while a predicate that holds everywhere leaves nothing. -/
theorem dropWhile_all_nil (p : Char → Bool) (l : List Char)
    (h : ∀ c ∈ l, p c = true) : l.dropWhile p = [] := by
  induction l with
  | nil => rfl
  | cons a t ih =>
    rw [List.dropWhile_cons, if_pos (h a (by simp))]
    exact ih (fun c hc => h c (by simp [hc]))

/-- Head `beq` failure refutes list `beq`. -/
theorem list_beq_head_false (a b : Char) (as bs : List Char) (h : (a == b) = false) :
    ((a :: as : List Char) == (b :: bs)) = false := by
  show (a :: as).beq (b :: bs) = false
  rw [List.beq_cons₂, h, Bool.false_and]

/-- A string starting with a digit is not an `inf`/`nan` literal. -/
theorem isInfNan_digit_head (c : Char) (t : List Char) (h : isDig c = true) :
    isInfNan (c :: t) = false := by
  have hi := isDig_beq_false c 'i' h (by decide)
  have hn := isDig_beq_false c 'n' h (by decide)
  have e1 : ("inf".data : List Char) = 'i' :: 'n' :: 'f' :: [] := rfl
  have e2 : ("infinity".data : List Char) = 'i' :: "nfinity".data := rfl
  have e3 : ("nan".data : List Char) = 'n' :: 'a' :: 'n' :: [] := rfl
  simp only [isInfNan, List.map_cons, toLower_digit c h, e1, e2, e3,
    list_beq_head_false c 'i' _ _ hi, list_beq_head_false c 'n' _ _ hn,
    Bool.or_self, Bool.or_false]

/-- `natRepr` is not `isEmpty`. -/
theorem natRepr_isEmpty_false (a : Nat) : (natRepr a).isEmpty = false := by
  cases hh : natRepr a with
  | nil => exact absurd hh (natRepr_ne_nil a)
  | cons c t => rfl

/-- `parseFloatBody` on a bare digit run. -/
theorem parseFloatBody_nat (a : Nat) :
    parseFloatBody (natRepr a) = some ((a : Rat)) := by
  have h1 : List.dropWhile isDig (natRepr a) = [] :=
    dropWhile_all_nil isDig (natRepr a) (natRepr_digits a)
  have h2 : List.takeWhile isDig (natRepr a) = natRepr a :=
    List.takeWhile_eq_self_iff.mpr (natRepr_digits a)
  simp [parseFloatBody, h1, h2, natRepr_isEmpty_false, parseExp, digitsVal_natRepr]

/-- `parseFloatBody` on `digits.zeros`. -/
theorem parseFloatBody_fixed (a N : Nat) :
    parseFloatBody (natRepr a ++ '.' :: List.replicate N '0') = some ((a : Rat)) := by
  have hsplit := takeWhile_append_stop isDig (natRepr a) '.' (List.replicate N '0')
    (natRepr_digits a) (by decide)
  have hz : ∀ c ∈ List.replicate N '0', isDig c = true := by
    intro c hc
    rw [List.eq_of_mem_replicate hc]
    decide
  have h3 : List.takeWhile isDig (List.replicate N '0') = List.replicate N '0' :=
    List.takeWhile_eq_self_iff.mpr hz
  have h4 : List.dropWhile isDig (List.replicate N '0') = [] :=
    dropWhile_all_nil isDig _ hz
  simp [parseFloatBody, hsplit.1, hsplit.2, h3, h4, natRepr_isEmpty_false,
    parseExp, digitsVal_natRepr, digitsVal_replicate_zero]

/-- Decompose a rendered natural into head and tail. -/
theorem natRepr_cons (m : Nat) : ∃ c t, natRepr m = c :: t ∧ isDig c = true := by
  cases hh : natRepr m with
  | nil => exact absurd hh (natRepr_ne_nil m)
  | cons c t => exact ⟨c, t, rfl, natRepr_digits m c (by rw [hh]; simp)⟩

/-- `int()` parses a rendered integer back. -/
theorem pyIntVal_intRepr (n : Int) : pyIntVal (intRepr n) = some n := by
  unfold pyIntVal
  rw [pyStrip_id_of_all _ (intRepr_no_space n)]
  cases n with
  | ofNat m =>
    obtain ⟨c, t, hct, hcd⟩ := natRepr_cons m
    have e : intRepr (Int.ofNat m) = c :: t := hct
    rw [e]
    have hdo : digitsOnly (c :: t) = true :=
      digitsOnly_of _ (by simp) (fun x hx => natRepr_digits m x (by rw [hct]; exact hx))
    have hdv : digitsVal (c :: t) = m := by rw [← hct]; exact digitsVal_natRepr m
    simp [isDig_beq_false c '+' hcd (by decide), isDig_beq_false c '-' hcd (by decide),
      hdo, hdv, Int.ofNat_eq_natCast]
  | negSucc m =>
    have e : intRepr (Int.negSucc m) = '-' :: natRepr (m + 1) := rfl
    rw [e]
    have hdo : digitsOnly (natRepr (m + 1)) = true :=
      digitsOnly_of _ (natRepr_ne_nil _) (natRepr_digits _)
    have h1 : (('-' : Char) == '+') = false := by decide
    have h2 : (('-' : Char) == '-') = true := by decide
    simp [h1, h2, hdo, digitsVal_natRepr, Int.negSucc_eq]

/-- The fixed-point rendering contains no whitespace. -/
theorem fixed_no_space (n : Int) (N : Nat) :
    ∀ c ∈ intRepr n ++ '.' :: List.replicate N '0', isPySpace c = false := by
  intro c hc
  rcases List.mem_append.mp hc with h1 | h2
  · exact intRepr_no_space n c h1
  · rcases List.mem_cons.mp h2 with rfl | h3
    · rfl
    · rw [List.eq_of_mem_replicate h3]; rfl

/-- `int()` rejects the fixed-point rendering (it contains a period). -/
theorem pyIntVal_fixed_none (n : Int) (N : Nat) :
    pyIntVal (intRepr n ++ '.' :: List.replicate N '0') = none := by
  unfold pyIntVal
  rw [pyStrip_id_of_all _ (fixed_no_space n N)]
  cases n with
  | ofNat m =>
    obtain ⟨c, t, hct, hcd⟩ := natRepr_cons m
    have e : (intRepr (Int.ofNat m) ++ '.' :: List.replicate N '0' : List Char) =
        c :: (t ++ '.' :: List.replicate N '0') := by
      show (natRepr m ++ _ : List Char) = _
      rw [hct]
      rfl
    rw [e]
    have hdo : digitsOnly (c :: (t ++ '.' :: List.replicate N '0')) = false :=
      digitsOnly_false_of_mem _ '.' (by simp) (by decide)
    simp [isDig_beq_false c '+' hcd (by decide), isDig_beq_false c '-' hcd (by decide), hdo]
  | negSucc m =>
    have e : (intRepr (Int.negSucc m) ++ '.' :: List.replicate N '0' : List Char) =
        '-' :: (natRepr (m + 1) ++ '.' :: List.replicate N '0') := rfl
    rw [e]
    have hdo : digitsOnly (natRepr (m + 1) ++ '.' :: List.replicate N '0') = false :=
      digitsOnly_false_of_mem _ '.' (by simp) (by decide)
    have h1 : (('-' : Char) == '+') = false := by decide
    have h2 : (('-' : Char) == '-') = true := by decide
    simp [h1, h2, hdo]

/-- `float()` parses a rendered integer back exactly. -/
theorem pyFloatCore_intRepr (n : Int) :
    pyFloatCore (intRepr n) = some (some ((n : Rat))) := by
  unfold pyFloatCore
  rw [pyStrip_id_of_all _ (intRepr_no_space n)]
  cases n with
  | ofNat m =>
    obtain ⟨c, t, hct, hcd⟩ := natRepr_cons m
    have e : intRepr (Int.ofNat m) = c :: t := hct
    rw [e]
    have hb : parseFloatBody (c :: t) = some ((m : Rat)) := by
      rw [← hct]; exact parseFloatBody_nat m
    simp [isDig_beq_false c '+' hcd (by decide), isDig_beq_false c '-' hcd (by decide),
      isInfNan_digit_head c t hcd, hb, Int.ofNat_eq_natCast]
  | negSucc m =>
    have e : intRepr (Int.negSucc m) = '-' :: natRepr (m + 1) := rfl
    rw [e]
    obtain ⟨c, t, hct, hcd⟩ := natRepr_cons (m + 1)
    have hb : parseFloatBody (natRepr (m + 1)) = some (((m + 1 : Nat) : Rat)) :=
      parseFloatBody_nat (m + 1)
    have h1 : (('-' : Char) == '+') = false := by decide
    have h2 : (('-' : Char) == '-') = true := by decide
    have hinn : isInfNan (natRepr (m + 1)) = false := by
      rw [hct]; exact isInfNan_digit_head c t hcd
    simp [h1, h2, hinn, hb, Int.negSucc_eq]

/-- `float()` parses the fixed-point rendering back exactly. -/
theorem pyFloatCore_fixed (n : Int) (N : Nat) :
    pyFloatCore (intRepr n ++ '.' :: List.replicate N '0') = some (some ((n : Rat))) := by
  unfold pyFloatCore
  rw [pyStrip_id_of_all _ (fixed_no_space n N)]
  cases n with
  | ofNat m =>
    obtain ⟨c, t, hct, hcd⟩ := natRepr_cons m
    have e : (intRepr (Int.ofNat m) ++ '.' :: List.replicate N '0' : List Char) =
        c :: (t ++ '.' :: List.replicate N '0') := by
      show (natRepr m ++ _ : List Char) = _
      rw [hct]
      rfl
    rw [e]
    have hb : parseFloatBody (c :: (t ++ '.' :: List.replicate N '0')) = some ((m : Rat)) := by
      have : (c :: (t ++ '.' :: List.replicate N '0') : List Char) =
          natRepr m ++ '.' :: List.replicate N '0' := by rw [hct]; rfl
      rw [this]
      exact parseFloatBody_fixed m N
    simp [isDig_beq_false c '+' hcd (by decide), isDig_beq_false c '-' hcd (by decide),
      isInfNan_digit_head, hcd, hb, Int.ofNat_eq_natCast]
  | negSucc m =>
    have e : (intRepr (Int.negSucc m) ++ '.' :: List.replicate N '0' : List Char) =
        '-' :: (natRepr (m + 1) ++ '.' :: List.replicate N '0') := rfl
    rw [e]
    obtain ⟨c, t, hct, hcd⟩ := natRepr_cons (m + 1)
    have hb : parseFloatBody (natRepr (m + 1) ++ '.' :: List.replicate N '0') =
        some (((m + 1 : Nat) : Rat)) := parseFloatBody_fixed (m + 1) N
    have h1 : (('-' : Char) == '+') = false := by decide
    have h2 : (('-' : Char) == '-') = true := by decide
    have hinn : isInfNan (natRepr (m + 1) ++ '.' :: List.replicate N '0') = false := by
      rw [hct]
      exact isInfNan_digit_head c _ hcd
    simp [h1, h2, hinn, hb, Int.negSucc_eq]

/-- A rendered integer is a number. -/
theorem is_number_intRepr (n : Int) : is_number (intRepr n) = true := by
  unfold is_number
  rw [pyFloatCore_intRepr]
  rfl

/-- A fixed-point rendering is a number. -/
theorem is_number_fixed (n : Int) (N : Nat) :
    is_number (intRepr n ++ '.' :: List.replicate N '0') = true := by
  unfold is_number
  rw [pyFloatCore_fixed]
  rfl

/-- `get_val` of a rendered integer is that integer. -/
theorem get_val_intRepr (n : Int) : get_val (intRepr n) = some (Json.jint n) := by
  unfold get_val
  rw [pyIntVal_intRepr]

/-- `get_val` of a fixed-point rendering is the exact float. -/
theorem get_val_fixed (n : Int) (N : Nat) :
    get_val (intRepr n ++ '.' :: List.replicate N '0') = some (Json.jfloat ((n : Rat))) := by
  unfold get_val
  rw [pyIntVal_fixed_none, pyFloatCore_fixed]

/-- `take` of the left part of an append. -/
theorem take_len_append (A B : List Char) : (A ++ B).take A.length = A := by
  rw [show A.length = A.length + 0 from rfl, List.take_append]
  simp

/-- `drop` of the left part of an append. -/
theorem drop_len_append (A B : List Char) : (A ++ B).drop A.length = B := by
  induction A with
  | nil => rfl
  | cons a A ih => simpa using ih

/-- Fixed-point rendering of an integer-valued rational: exactly the digits
of the integer followed by `N` zero decimals. -/
theorem ratFixed_int (n : Int) (N : Nat) (hN : 0 < N) :
    ratFixed ((n : Rat)) N = intRepr n ++ '.' :: List.replicate N '0' := by
  have hcast : ((n : Rat)) * (10 : Rat) ^ N = ((n * 10 ^ N : Int) : Rat) := by
    push_cast
    ring
  have hfl : ⌊((n : Rat)) * (10 : Rat) ^ N⌋ = n * 10 ^ N := by
    rw [hcast, Int.floor_intCast]
  have hfrac : ((n : Rat)) * (10 : Rat) ^ N - ((n * 10 ^ N : Int) : Rat) = 0 := by
    push_cast
    ring
  have habs : (n * 10 ^ N).natAbs = n.natAbs * 10 ^ N := by
    rw [Int.natAbs_mul, Int.natAbs_pow]
    rfl
  have hNne : (N == 0) = false := beq_eq_false_iff_ne.mpr hN.ne'
  simp only [ratFixed, hfl, hfrac]
  simp only [show ((0 : Rat) > 1 / 2) ↔ False from by norm_num,
    show ((0 : Rat) < 1 / 2) ↔ True from by norm_num, if_false, if_true]
  rw [habs, hNne]
  simp only [Bool.false_eq_true, if_false]
  have hp : (0 : Int) < 10 ^ N := by positivity
  cases n with
  | ofNat m =>
    have hr : ¬ (Int.ofNat m * 10 ^ N < 0) :=
      not_lt.mpr (mul_nonneg (Int.ofNat_nonneg m) hp.le)
    rw [if_neg hr]
    by_cases hm : m = 0
    · subst hm
      have hz : (Int.ofNat 0).natAbs * 10 ^ N = 0 := by simp
      rw [hz, show natRepr 0 = ['0'] from rfl]
      rw [if_pos (by simp; omega)]
      have hpad : (List.replicate (N + 1 - (['0'] : List Char).length) '0' ++ ['0'] :
          List Char) = List.replicate (N + 1) '0' := by
        have he : N + 1 - (['0'] : List Char).length = N := by simp
        rw [he, ← List.replicate_succ' N '0']
      rw [hpad]
      have hlen : (List.replicate (N + 1) '0').length - N = 1 := by simp
      rw [hlen]
      have htake : (List.replicate (N + 1) '0').take 1 = ['0'] := by
        rw [List.take_replicate]
        have : min 1 (N + 1) = 1 := by omega
        rw [this]
        rfl
      have hdrop : (List.replicate (N + 1) '0').drop 1 = List.replicate N '0' := by
        rw [List.drop_replicate]
        congr 1
      rw [htake, hdrop]
      rfl
    · have ha : (Int.ofNat m).natAbs = m := rfl
      rw [ha, natRepr_mul_pow_ten m N hm]
      have hL : 0 < (natRepr m).length := List.length_pos.mpr (natRepr_ne_nil m)
      have hlen2 : (natRepr m ++ List.replicate N '0').length = (natRepr m).length + N := by
        simp
      rw [if_neg (by rw [hlen2]; omega)]
      have hlen3 : (natRepr m ++ List.replicate N '0').length - N = (natRepr m).length := by
        rw [hlen2]
        omega
      rw [hlen3, take_len_append, drop_len_append]
      rfl
  | negSucc m =>
    have hr : Int.negSucc m * 10 ^ N < 0 := by
      have h1 : Int.negSucc m < 0 := Int.negSucc_lt_zero m
      exact mul_neg_of_neg_of_pos h1 hp
    rw [if_pos hr]
    have ha : (Int.negSucc m).natAbs = m + 1 := rfl
    rw [ha, natRepr_mul_pow_ten (m + 1) N (by omega)]
    have hlen2 : (natRepr (m + 1) ++ List.replicate N '0').length =
        (natRepr (m + 1)).length + N := by simp
    have hL : 0 < (natRepr (m + 1)).length := List.length_pos.mpr (natRepr_ne_nil (m + 1))
    rw [if_neg (by rw [hlen2]; omega)]
    have hlen3 : (natRepr (m + 1) ++ List.replicate N '0').length - N =
        (natRepr (m + 1)).length := by
      rw [hlen2]
      omega
    rw [hlen3, take_len_append, drop_len_append]
    rfl

/-! ## C8 — supporting lemmas: trim counts of rendered value strings -/

/-- `findIdx?` over a prefix where the predicate fails everywhere. -/
theorem findIdx?_append_none_left (p : Char → Bool) (A B : List Char)
    (h : ∀ c ∈ A, p c = false) :
    (A ++ B).findIdx? p = (B.findIdx? p).map (· + A.length) := by
  rw [List.findIdx?_append, List.findIdx?_eq_none_iff.mpr h]
  rfl

/-- `findIdx?` hits a satisfying head. -/
theorem findIdx?_cons_true (p : Char → Bool) (c : Char) (t : List Char)
    (h : p c = true) : (c :: t).findIdx? p = some 0 := by
  simp [List.findIdx?_cons, h]

/-- A successful `findIdx?` is within bounds. -/
theorem findIdx?_some_lt (p : Char → Bool) (l : List Char) (i : Nat)
    (h : l.findIdx? p = some i) : i < l.length := by
  induction l generalizing i with
  | nil => simp [List.findIdx?] at h
  | cons c t ih =>
    rw [List.findIdx?_cons] at h
    by_cases hc : p c = true
    · rw [if_pos hc] at h
      simp at h ⊢
      omega
    · rw [if_neg hc] at h
      have hrel : (t.findIdx? p).map (· + 1) = t.findIdx? p 1 := by
        simpa using (@List.findIdx?_succ Char t p 0).symm
      rw [← hrel] at h
      rcases Option.map_eq_some'.mp h with ⟨j, hj, rfl⟩
      have := ih j hj
      simp
      omega

/-- Dispatch: both a space and a period occur. -/
theorem rule_ss (right : List Char) (sp pd : Nat)
    (h1 : right.findIdx? (· == ' ') = some sp)
    (h2 : right.findIdx? (· == '.') = some pd) :
    amended_trim_rule right = if 0 < pd ∧ 0 < sp ∧ pd < sp then pd + 1 else sp + 1 := by
  unfold amended_trim_rule
  rw [h1, h2]

/-- Dispatch: a space occurs, no period. -/
theorem rule_sn (right : List Char) (sp : Nat)
    (h1 : right.findIdx? (· == ' ') = some sp)
    (h2 : right.findIdx? (· == '.') = none) :
    amended_trim_rule right = sp + 1 := by
  unfold amended_trim_rule
  rw [h1, h2]

/-- Dispatch: a period occurs, no space. -/
theorem rule_ns (right : List Char) (pd : Nat)
    (h1 : right.findIdx? (· == ' ') = none)
    (h2 : right.findIdx? (· == '.') = some pd) :
    amended_trim_rule right = if 0 < pd then pd + 1 else 2 := by
  unfold amended_trim_rule
  rw [h1, h2]

/-- Dispatch: neither occurs. -/
theorem rule_nn (right : List Char)
    (h1 : right.findIdx? (· == ' ') = none)
    (h2 : right.findIdx? (· == '.') = none) :
    amended_trim_rule right = 2 := by
  unfold amended_trim_rule
  rw [h1, h2]

/-- Trim count of a string without spaces or periods: two characters. -/
theorem trim_count_plain (s : List Char)
    (hsp : ∀ c ∈ s, (c == ' ') = false)
    (hpd : ∀ c ∈ s, (c == '.') = false) : trim_count s = 2 := by
  rw [trim_count_eq_rule,
    rule_nn s (List.findIdx?_eq_none_iff.mpr hsp) (List.findIdx?_eq_none_iff.mpr hpd)]

/-- Trim count of `numeral ++ ' ' :: u` where the numeral has no space or
period: the numeral's length plus one. -/
theorem trim_count_num_unit (numeral u : List Char)
    (hsp : ∀ c ∈ numeral, (c == ' ') = false)
    (hpd : ∀ c ∈ numeral, (c == '.') = false) :
    trim_count (numeral ++ ' ' :: u) = numeral.length + 1 := by
  rw [trim_count_eq_rule]
  have hs : (numeral ++ ' ' :: u).findIdx? (· == ' ') = some numeral.length := by
    rw [findIdx?_append_none_left _ _ _ hsp, findIdx?_cons_true _ _ _ (by decide)]
    simp
  cases hpd2 : (' ' :: u).findIdx? (· == '.') with
  | none =>
    rw [rule_sn _ _ hs]
    rw [findIdx?_append_none_left _ _ _ hpd, hpd2]
    rfl
  | some j =>
    rw [rule_ss _ _ (j + numeral.length) hs
      (by rw [findIdx?_append_none_left _ _ _ hpd, hpd2]; rfl)]
    rw [if_neg (by omega)]

/-- Trim count of `A ++ '.' :: Z ++ post` (fixed-point rendering plus an
optional unit suffix): `A`'s length plus one. -/
theorem trim_count_fixed (A Z post : List Char)
    (hAne : A ≠ [])
    (hAsp : ∀ c ∈ A, (c == ' ') = false)
    (hApd : ∀ c ∈ A, (c == '.') = false)
    (hZsp : ∀ c ∈ Z, (c == ' ') = false)
    (hpost : post = [] ∨ ∃ u, post = ' ' :: u) :
    trim_count (A ++ '.' :: (Z ++ post)) = A.length + 1 := by
  rw [trim_count_eq_rule]
  have hApos : 0 < A.length := List.length_pos.mpr hAne
  have hpdx : (A ++ '.' :: (Z ++ post)).findIdx? (· == '.') = some A.length := by
    rw [findIdx?_append_none_left _ _ _ hApd, findIdx?_cons_true _ _ _ (by decide)]
    simp
  have hspename : ∀ c ∈ A ++ '.' :: Z, (c == ' ') = false := by
    intro c hc
    rcases List.mem_append.mp hc with h1 | h2
    · exact hAsp c h1
    · rcases List.mem_cons.mp h2 with rfl | h3
      · rfl
      · exact hZsp c h3
  cases hpost with
  | inl h0 =>
    subst h0
    have hnone : (A ++ '.' :: (Z ++ [])).findIdx? (· == ' ') = none := by
      rw [List.findIdx?_eq_none_iff]
      intro c hc
      exact hspename c (by simpa using hc)
    rw [rule_ns _ _ hnone hpdx, if_pos hApos]
  | inr h =>
    obtain ⟨u, rfl⟩ := h
    have hshape : (A ++ '.' :: (Z ++ ' ' :: u)) = (A ++ '.' :: Z) ++ ' ' :: u := by
      simp
    have hsp2 : (A ++ '.' :: (Z ++ ' ' :: u)).findIdx? (· == ' ') =
        some (A ++ '.' :: Z).length := by
      rw [hshape, findIdx?_append_none_left _ _ _ hspename,
        findIdx?_cons_true _ _ _ (by decide)]
      simp
    rw [rule_ss _ (A ++ '.' :: Z).length A.length hsp2 hpdx]
    have hc2 : 0 < (A ++ '.' :: Z).length := by
      simp only [List.length_append, List.length_cons]
      omega
    have hc3 : A.length < (A ++ '.' :: Z).length := by
      simp only [List.length_append, List.length_cons]
      omega
    rw [if_pos ⟨hApos, hc2, hc3⟩]

/-- Trim count of a nonempty whitespace-free rendered string is at most its
length plus one. -/
theorem trim_count_le (s : List Char) (hne : s ≠ [])
    (hsp : ∀ c ∈ s, (c == ' ') = false) :
    trim_count s ≤ s.length + 1 := by
  rw [trim_count_eq_rule]
  have hlen : 0 < s.length := List.length_pos.mpr hne
  have hnone : s.findIdx? (· == ' ') = none := List.findIdx?_eq_none_iff.mpr hsp
  cases hpd : s.findIdx? (· == '.') with
  | none => rw [rule_nn s hnone hpd]; omega
  | some j =>
    rw [rule_ns s j hnone hpd]
    have := findIdx?_some_lt _ _ _ hpd
    split_ifs <;> omega

/-! ## C8 — supporting lemmas: parsing a built line -/

/-- `re.search(r'\[(.*)\]', ...)` on a clean bracketed label. -/
theorem extractBracket_mk (flat : List Char) :
    extractBracket ('[' :: (flat ++ [']'])) = some flat := by
  unfold extractBracket
  have h1 : List.dropWhile (fun c => c != '[') ('[' :: (flat ++ [']'])) =
      '[' :: (flat ++ [']']) := by
    rw [List.dropWhile_cons, if_neg (by decide)]
  rw [h1]
  have h2 : (flat ++ [']']).reverse = ']' :: flat.reverse := by
    rw [List.reverse_append]
    rfl
  have h3 : List.dropWhile (fun c => c != ']') (']' :: flat.reverse) =
      ']' :: flat.reverse := by
    rw [List.dropWhile_cons, if_neg (by decide)]
  simp only [h2, h3, List.reverse_reverse]

/-- The label token is whitespace-free. -/
theorem fmtk_no_space (flat : List Char) (h : ∀ c ∈ flat, isPySpace c = false) :
    ∀ c ∈ '[' :: (flat ++ [']']), isPySpace c = false := by
  intro c hc
  rcases List.mem_cons.mp hc with rfl | hc2
  · rfl
  · rcases List.mem_append.mp hc2 with h1 | h2
    · exact h c h1
    · rcases List.mem_cons.mp h2 with rfl | h3
      · rfl
      · cases h3

/-- Parsing one built line of a numeric field. -/
theorem parse_line_num (g kstr : String) (flat E numeral post : List Char)
    (tokRest : List (List Char)) (v' : Json)
    (hflat_nw : ∀ c ∈ flat, isPySpace c = false)
    (hkeyne : (flat == "id".data) = false)
    (hE : ∀ t ∈ pySplit E, is_number t = false)
    (hnum_ne : numeral ≠ [])
    (hnum : is_number numeral = true)
    (hget : get_val numeral = some v')
    (hres : id_to_group_key ⟨flat⟩ = some (g, kstr))
    (htok : pySplit (numeral ++ post) = numeral :: tokRest)
    (hlast : ∀ c, (numeral ++ post).getLast? = some c → isPySpace c = false) :
    parse_line ⟨'[' :: ((flat ++ [']']) ++ ' ' :: (E ++ ' ' :: (numeral ++ post)))⟩ =
      some (some ((g, kstr), v')) := by
  have hnp_ne : numeral ++ post ≠ [] := by
    intro hc
    exact hnum_ne (List.append_eq_nil.mp hc).1
  have hline : ('[' :: ((flat ++ [']']) ++ ' ' :: (E ++ ' ' :: (numeral ++ post))) :
      List Char) =
      ('[' :: (flat ++ [']'])) ++ ' ' :: (E ++ ' ' :: (numeral ++ post)) := rfl
  have hstrip : pyStrip ('[' :: ((flat ++ [']']) ++ ' ' ::
      (E ++ ' ' :: (numeral ++ post)))) =
      '[' :: ((flat ++ [']']) ++ ' ' :: (E ++ ' ' :: (numeral ++ post))) := by
    apply pyStrip_id
    · intro c hc
      simp at hc
      subst hc
      rfl
    · intro c hc
      apply hlast
      have hshape : ('[' :: ((flat ++ [']']) ++ ' ' :: (E ++ ' ' ::
          (numeral ++ post))) : List Char) =
          ('[' :: (flat ++ [']']) ++ ' ' :: E ++ [' ']) ++ (numeral ++ post) := by
        simp
      rw [hshape, List.getLast?_append] at hc
      cases hg : (numeral ++ post).getLast? with
      | none =>
        exact absurd (List.getLast?_eq_none_iff.mp hg) hnp_ne
      | some b =>
        rw [hg] at hc
        simpa using hc
  have hsplitL : pySplit ('[' :: ((flat ++ [']']) ++ ' ' ::
      (E ++ ' ' :: (numeral ++ post)))) =
      ('[' :: (flat ++ [']'])) :: (pySplit E ++ (numeral :: tokRest)) := by
    rw [hline, pySplit_append_space, pySplit_append_space,
      pySplit_token _ (by simp) (fmtk_no_space flat hflat_nw), htok]
    rfl
  have hfind : (pySplit E ++ (numeral :: tokRest)).find? (fun t => is_number t) =
      some numeral := by
    rw [List.find?_append]
    rw [List.find?_eq_none.mpr (fun x hx => by rw [hE x hx]; simp),
      List.find?_cons_of_pos _ hnum]
    rfl
  simp only [parse_line, hstrip, hsplitL, extractBracket_mk, hkeyne, hres]
  rw [if_neg (by decide)]
  simp only [Bool.false_eq_true, if_false, List.drop_succ_cons, List.drop_zero]
  simp [hfind, hget]

/-- Parsing one built line of the `id` field. -/
theorem parse_line_id (E s : List Char) (v' : Json)
    (hE : pySplit E = ["TinyG".data, "ID".data])
    (hs_ne : s ≠ [])
    (hs_nw : ∀ c ∈ s, isPySpace c = false)
    (hget : get_val s = some v') :
    parse_line ⟨'[' :: (("id".data ++ [']']) ++ ' ' :: (E ++ ' ' :: s))⟩ =
      some (some (("sys", "id"), v')) := by
  have hline : ('[' :: (("id".data ++ [']']) ++ ' ' :: (E ++ ' ' :: s)) : List Char) =
      ('[' :: ("id".data ++ [']'])) ++ ' ' :: (E ++ ' ' :: s) := rfl
  have hstrip : pyStrip ('[' :: (("id".data ++ [']']) ++ ' ' :: (E ++ ' ' :: s))) =
      '[' :: (("id".data ++ [']']) ++ ' ' :: (E ++ ' ' :: s)) := by
    apply pyStrip_id
    · intro c hc
      simp at hc
      subst hc
      rfl
    · intro c hc
      apply hs_nw
      have hshape : ('[' :: (("id".data ++ [']']) ++ ' ' :: (E ++ ' ' :: s)) :
          List Char) =
          ('[' :: ("id".data ++ [']']) ++ ' ' :: E ++ [' ']) ++ s := by
        simp
      rw [hshape, List.getLast?_append] at hc
      cases hg : s.getLast? with
      | none => exact absurd (List.getLast?_eq_none_iff.mp hg) hs_ne
      | some b =>
        rw [hg] at hc
        simp at hc
        subst hc
        obtain ⟨hne2, rfl⟩ := List.mem_getLast?_eq_getLast (by rw [Option.mem_def, hg])
        exact List.getLast_mem hne2
  have hsplitL : pySplit ('[' :: (("id".data ++ [']']) ++ ' ' :: (E ++ ' ' :: s))) =
      ('[' :: ("id".data ++ [']'])) :: ("TinyG".data :: "ID".data :: s :: []) := by
    rw [hline, pySplit_append_space, pySplit_append_space,
      pySplit_token _ (by simp) (fmtk_no_space _ (by decide)), hE,
      pySplit_token s hs_ne hs_nw]
    rfl
  simp only [parse_line, hstrip, hsplitL, extractBracket_mk]
  rw [if_neg (by decide)]
  have hres : id_to_group_key ⟨("id".data : List Char)⟩ = some ("sys", "id") := rfl
  rw [if_pos (by decide)]
  simp [hres, hget]

/-! ## C8 — the global side condition and its consequences -/

set_option maxRecDepth 100000 in
set_option maxHeartbeats 4000000 in
/-- Every field of the registry passes the decidable round-trip side
condition. -/
theorem all_fields_check_true : all_fields_checkB = true := by decide

/-- Not Python-whitespace implies not a space. -/
theorem beq_space_of_not_ws (c : Char) (h : isPySpace c = false) :
    (c == ' ') = false := by
  unfold isPySpace at h
  simp only [Bool.or_eq_false_iff] at h
  exact h.1.1.1.1.1

/-- `natReprGo` emits at most `fuel` digits on top of the accumulator. -/
theorem natReprGo_length (fuel : Nat) : ∀ n acc,
    (natReprGo fuel n acc).length ≤ fuel + acc.length := by
  induction fuel with
  | zero => intro n acc; simp [natReprGo]
  | succ f ih =>
    intro n acc
    unfold natReprGo
    split
    · simp; omega
    · have := ih (n / 10) (Char.ofNat (n % 10 + '0'.toNat) :: acc)
      simp at this ⊢
      omega

/-- Digit count of a bounded natural. -/
theorem natRepr_length_le (n k : Nat) (h1 : 0 < k) (h2 : n < 10 ^ k) :
    (natRepr n).length ≤ k := by
  rw [natRepr_eq_go k n h1 h2]
  simpa using natReprGo_length k n []

/-- Digit count of a bounded integer (sign included). -/
theorem intRepr_length_le (n : Int) (h : n.natAbs < 10 ^ 15) :
    (intRepr n).length ≤ 16 := by
  cases n with
  | ofNat m =>
    have : (natRepr m).length ≤ 15 :=
      natRepr_length_le m 15 (by norm_num) (by simpa using h)
    simpa [intRepr] using Nat.le_succ_of_le this
  | negSucc m =>
    have : (natRepr (m + 1)).length ≤ 15 :=
      natRepr_length_le (m + 1) 15 (by norm_num) (by simpa [Int.natAbs] using h)
    simp [intRepr]
    omega

/-- Trim count of a nonempty space-free string never exceeds
`max 2 length`. -/
theorem trim_count_le_max (s : List Char) (hne : s ≠ [])
    (hsp : ∀ c ∈ s, (c == ' ') = false) :
    trim_count s ≤ max 2 s.length := by
  rw [trim_count_eq_rule]
  have hnone : s.findIdx? (· == ' ') = none := List.findIdx?_eq_none_iff.mpr hsp
  cases hpd : s.findIdx? (· == '.') with
  | none => rw [rule_nn s hnone hpd]; omega
  | some j =>
    rw [rule_ns s j hnone hpd]
    have := findIdx?_some_lt _ _ _ hpd
    split_ifs <;> omega

/-- `parseFloatBody` on any bare digit run. -/
theorem parseFloatBody_digits (ds : List Char) (hne : ds ≠ [])
    (hd : ∀ c ∈ ds, isDig c = true) :
    parseFloatBody ds = some ((digitsVal ds : Rat)) := by
  have h1 : List.dropWhile isDig ds = [] := dropWhile_all_nil isDig ds hd
  have h2 : List.takeWhile isDig ds = ds := List.takeWhile_eq_self_iff.mpr hd
  have h3 : ds.isEmpty = false := by cases ds with
    | nil => cases hne rfl
    | cons c t => rfl
  simp [parseFloatBody, h1, h2, h3, parseExp]

/-- A nonempty digit run is neither `inf`/`nan` nor unparsable. -/
theorem digits_clean (t : List Char) (hdo : digitsOnly t = true) :
    isInfNan t = false ∧ parseFloatBody t = some ((digitsVal t : Rat)) := by
  have htne : t ≠ [] := by
    intro hc; subst hc; exact absurd hdo (by decide)
  have htd : ∀ x ∈ t, isDig x = true := by
    have hdo2 := hdo
    unfold digitsOnly at hdo2
    rw [Bool.and_eq_true] at hdo2
    exact fun x hx => List.all_eq_true.mp hdo2.2 x hx
  constructor
  · cases t with
    | nil => cases htne rfl
    | cons a b => exact isInfNan_digit_head a b (htd a (by simp))
  · exact parseFloatBody_digits t htne htd

/-- A string `int()` accepts is a number. -/
theorem pyIntVal_imp_is_number (l : List Char) (n : Int)
    (h : pyIntVal l = some n) : is_number l = true := by
  unfold pyIntVal at h
  unfold is_number pyFloatCore
  cases ht : pyStrip l with
  | nil => rw [ht] at h; exact absurd h (by simp)
  | cons c ds =>
    simp only [ht] at h ⊢
    by_cases hp : c = '+'
    · subst hp
      simp only [show (('+' == '+') : Bool) = true from rfl, if_true] at h ⊢
      have hdo : digitsOnly ds = true := by
        by_contra hcon
        simp only [Bool.not_eq_true] at hcon
        rw [hcon] at h
        simp at h
      obtain ⟨hin, hpf⟩ := digits_clean ds hdo
      simp [hin, hpf]
    · have hp' : (c == '+') = false := beq_eq_false_iff_ne.mpr hp
      by_cases hm : c = '-'
      · subst hm
        simp only [show (('-' == '+') : Bool) = false from rfl,
          show (('-' == '-') : Bool) = true from rfl, Bool.false_eq_true,
          if_false, if_true] at h ⊢
        have hdo : digitsOnly ds = true := by
          by_contra hcon
          simp only [Bool.not_eq_true] at hcon
          rw [hcon] at h
          simp at h
        obtain ⟨hin, hpf⟩ := digits_clean ds hdo
        simp [hin, hpf]
      · have hm' : (c == '-') = false := beq_eq_false_iff_ne.mpr hm
        simp only [hp', hm', Bool.false_eq_true, if_false] at h ⊢
        have hdo : digitsOnly (c :: ds) = true := by
          by_contra hcon
          simp only [Bool.not_eq_true] at hcon
          rw [hcon] at h
          simp at h
        obtain ⟨hin, hpf⟩ := digits_clean (c :: ds) hdo
        simp [hin, hpf]

/-- `get_val` keeps a non-numeric string as a string. -/
theorem get_val_not_number (l : List Char) (h : is_number l = false) :
    get_val l = some (Json.jstr ⟨l⟩) := by
  have hint : pyIntVal l = none := by
    cases hi : pyIntVal l with
    | none => rfl
    | some n => exact absurd (pyIntVal_imp_is_number l n hi) (by simp [h])
  have hfc : pyFloatCore l = none := by
    unfold is_number at h
    exact Option.not_isSome_iff_eq_none.mp (by simp [h])
  unfold get_val
  rw [hint, hfc]

/-- Extract the prefix-token condition from its decidable check. -/
theorem prefixTokensOk_spec (D : List Char) (h : prefixTokensOkB D = true) :
    ∀ j, ∀ t ∈ pySplit (D.take j), is_number t = false := by
  intro j t ht
  by_cases hj : j ≤ D.length
  · have h1 := List.all_eq_true.mp h j (List.mem_range.mpr (by omega))
    have h2 := List.all_eq_true.mp h1 t ht
    simpa using h2
  · have heq : D.take j = D.take D.length := by
      rw [List.take_of_length_le (by omega), List.take_of_length_le (le_refl _)]
    rw [heq] at ht
    have h1 := List.all_eq_true.mp h D.length (List.mem_range.mpr (by omega))
    have h2 := List.all_eq_true.mp h1 t ht
    simpa using h2

/-- Extract the `id`-field description condition from its decidable
check. -/
theorem idPrefixOk_spec (D : List Char) (h : idPrefixOkB D = true) :
    ∀ j, j ≤ D.length → D.length ≤ j + 20 →
      pySplit (D.take j) = ["TinyG".data, "ID".data] := by
  intro j hj1 hj2
  have h1 := List.all_eq_true.mp h j (List.mem_range.mpr (by omega))
  simp only [Bool.or_eq_true, decide_eq_true_eq] at h1
  rcases h1 with h1 | h1
  · omega
  · exact eq_of_beq h1

/-- A head-space check yields the tail decomposition. -/
theorem head_space_of (post : List Char) (h : (post.head? == some ' ') = true) :
    ∃ u, post = ' ' :: u := by
  cases post with
  | nil => exact absurd h (by decide)
  | cons c u =>
    have : c = ' ' := by
      have := eq_of_beq h
      simpa using this
    exact ⟨u, by rw [this]⟩

/-- Unfold the `lastNonWs` check. -/
theorem lastNonWs_spec (l : List Char) (h : lastNonWs l = true) :
    ∀ c, l.getLast? = some c → isPySpace c = false := by
  intro c hc
  unfold lastNonWs at h
  rw [hc] at h
  simpa using h

/-- Rendering an integer through a bare `{:d}`-template. -/
theorem renderFmt_int_spec (units : String) (post : List Char)
    (h : splitTemplate units.data = some ([], ":d".data, post)) :
    ∀ m : Int, renderFmt units (Json.jint m) = some (intRepr m ++ post) := by
  intro m
  unfold renderFmt
  rw [h]
  simp [formatSpec]

/-- Rendering through a `{:.Nf}`-template, for integers and rationals. -/
theorem renderFmt_fixed_spec (units : String) (ds post : List Char)
    (hsp : splitTemplate units.data = some ([], ':' :: '.' :: (ds ++ ['f']), post))
    (hne : ds ≠ []) (hd : ∀ c ∈ ds, isDig c = true) :
    (∀ m : Int, renderFmt units (Json.jint m) =
        some ((intRepr m ++ '.' :: List.replicate (digitsVal ds) '0') ++ post)) ∧
    (∀ q : Rat, renderFmt units (Json.jfloat q) =
        some (ratFixed q (digitsVal ds) ++ post)) := by
  have hbne : ((':' :: '.' :: (ds ++ ['f']) : List Char) == ":d".data) = false := by
    have h2 : (('.' :: (ds ++ ['f']) : List Char) == ('d' :: [])) = false :=
      list_beq_head_false '.' 'd' _ _ (by decide)
    show (':' :: '.' :: (ds ++ ['f'])).beq (':' :: 'd' :: []) = false
    rw [List.beq_cons₂,
      show (('.' :: (ds ++ ['f'])).beq ('d' :: [])) =
        (('.' :: (ds ++ ['f']) : List Char) == ('d' :: [])) from rfl, h2]
    simp
  have hstop := takeWhile_append_stop isDig ds 'f' [] hd (by decide)
  have hemp : ds.isEmpty = false := by
    cases ds with
    | nil => cases hne rfl
    | cons a b => rfl
  constructor
  · intro m
    unfold renderFmt
    rw [hsp]
    simp only [formatSpec, List.isEmpty_cons, Bool.false_eq_true, if_false, hbne,
      hstop.1, hstop.2, hemp]
    simp
  · intro q
    unfold renderFmt
    rw [hsp]
    simp only [formatSpec, List.isEmpty_cons, Bool.false_eq_true, if_false, hbne,
      hstop.1, hstop.2, hemp]
    simp

/-- Rendering the `id` string through `{}`. -/
theorem renderFmt_str_id (s : String) :
    renderFmt "{}" (Json.jstr s) = some s.data := by
  simp [renderFmt, splitTemplate, formatSpec, pyStr]

/-- Taking all but `k` trailing characters of an append, when the cut stays
inside the right part. -/
theorem take_sub_append (A B : List Char) (k : Nat) (hk : k ≤ B.length) :
    (A ++ B).take ((A ++ B).length - k) = A ++ B.take (B.length - k) := by
  rw [List.length_append,
    show A.length + B.length - k = A.length + (B.length - k) from by omega,
    List.take_append]

/-- Build `field_ok` for a field whose rendered value starts with a
numeral: the printed line trims inside the description area, and the
parser recovers the numeral as the first numeric token. -/
theorem field_ok_build (g mapPfx key descr units : String)
    (numeral post : List Char) (v v' : Json)
    (hleft : left35 g mapPfx key descr =
      ('[' :: ((flat_key g key).data ++ [']'])) ++ ' ' :: restD g mapPfx key descr)
    (hflat_nw : ∀ c ∈ (flat_key g key).data, isPySpace c = false)
    (hkeyne : ((flat_key g key).data == "id".data) = false)
    (hres : id_to_group_key (flat_key g key) = some (g, key))
    (hfr : fmt_right key units v = some (numeral ++ post))
    (hfr' : fmt_right key units v' = some (numeral ++ post))
    (hk : trim_count (numeral ++ post) ≤ (restD g mapPfx key descr).length)
    (hE : ∀ j, ∀ t ∈ pySplit ((restD g mapPfx key descr).take j), is_number t = false)
    (hnum_ne : numeral ≠ [])
    (hnum : is_number numeral = true)
    (hget : get_val numeral = some v')
    (htok : ∃ tokRest, pySplit (numeral ++ post) = numeral :: tokRest)
    (hlast : ∀ c, (numeral ++ post).getLast? = some c → isPySpace c = false) :
    field_ok g mapPfx key descr units v := by
  obtain ⟨tokRest, htk⟩ := htok
  refine ⟨⟨'[' :: (((flat_key g key).data ++ [']']) ++ ' ' ::
      ((restD g mapPfx key descr).take
          ((restD g mapPfx key descr).length - trim_count (numeral ++ post)) ++
        ' ' :: (numeral ++ post)))⟩,
    numeral ++ post, v', ?_, hfr, ?_, hfr'⟩
  · have hfl : fmt_line g mapPfx key descr units v =
        some ⟨(left35 g mapPfx key descr).take
            ((left35 g mapPfx key descr).length - trim_count (numeral ++ post)) ++
          ' ' :: (numeral ++ post)⟩ := by
      unfold fmt_line
      rw [hfr]
      rfl
    refine hfl.trans ?_
    congr 1
    apply congrArg String.mk
    have hA : left35 g mapPfx key descr =
        (('[' :: ((flat_key g key).data ++ [']'])) ++ [' ']) ++
          restD g mapPfx key descr := by
      rw [hleft]; simp
    rw [hA, take_sub_append _ _ _ hk]
    simp
  · exact parse_line_num g key (flat_key g key).data
      ((restD g mapPfx key descr).take
        ((restD g mapPfx key descr).length - trim_count (numeral ++ post)))
      numeral post tokRest v' hflat_nw hkeyne
      (hE ((restD g mapPfx key descr).length - trim_count (numeral ++ post)))
      hnum_ne hnum hget hres htk hlast

/-- Build `field_ok` for the `id` field: any nonempty whitespace-free
non-numeric string of at most 20 characters survives the round trip. -/
theorem field_ok_build_id (mapPfx descr : String) (s : String)
    (hne : s.data ≠ []) (hlen : s.data.length ≤ 20)
    (hnw : ∀ c ∈ s.data, isPySpace c = false)
    (hnn : is_number s.data = false)
    (hleft : left35 "sys" mapPfx "id" descr =
      ('[' :: ("id".data ++ [']'])) ++ ' ' :: restD "sys" mapPfx "id" descr)
    (hlen21 : 21 ≤ (restD "sys" mapPfx "id" descr).length)
    (hidp : idPrefixOkB (restD "sys" mapPfx "id" descr) = true) :
    field_ok "sys" mapPfx "id" descr "{}" (Json.jstr s) := by
  have hsp : ∀ c ∈ s.data, (c == ' ') = false :=
    fun c hc => beq_space_of_not_ws c (hnw c hc)
  have hkle : trim_count s.data ≤ 20 :=
    le_trans (trim_count_le_max s.data hne hsp) (Nat.max_le.mpr ⟨by norm_num, hlen⟩)
  have hfr : fmt_right "id" "{}" (Json.jstr s) = some s.data := by
    unfold fmt_right
    rw [if_neg (by decide)]
    exact renderFmt_str_id s
  have hget : get_val s.data = some (Json.jstr s) := get_val_not_number s.data hnn
  have hE : pySplit ((restD "sys" mapPfx "id" descr).take
      ((restD "sys" mapPfx "id" descr).length - trim_count s.data)) =
      ["TinyG".data, "ID".data] :=
    idPrefixOk_spec _ hidp _ (by omega) (by omega)
  refine ⟨⟨'[' :: (("id".data ++ [']']) ++ ' ' ::
      ((restD "sys" mapPfx "id" descr).take
          ((restD "sys" mapPfx "id" descr).length - trim_count s.data) ++
        ' ' :: s.data))⟩,
    s.data, Json.jstr s, ?_, hfr, ?_, hfr⟩
  · have hfl : fmt_line "sys" mapPfx "id" descr "{}" (Json.jstr s) =
        some ⟨(left35 "sys" mapPfx "id" descr).take
            ((left35 "sys" mapPfx "id" descr).length - trim_count s.data) ++
          ' ' :: s.data⟩ := by
      unfold fmt_line
      rw [hfr]
      rfl
    refine hfl.trans ?_
    congr 1
    apply congrArg String.mk
    have hA : left35 "sys" mapPfx "id" descr =
        (('[' :: ("id".data ++ [']'])) ++ [' ']) ++
          restD "sys" mapPfx "id" descr := by
      rw [hleft]; simp
    rw [hA, take_sub_append _ _ _ (by omega)]
    simp
  · exact parse_line_id _ s.data (Json.jstr s) hE hne hnw hget

/-- String `beq` failure descends to the character data. -/
theorem string_beq_data_false (s t : String) (h : (s == t) = false) :
    (s.data == t.data) = false := by
  apply beq_eq_false_iff_ne.mpr
  intro hd
  apply beq_eq_false_iff_ne.mp h
  cases s
  cases t
  exact congrArg String.mk (by simpa using hd)

/-- Extract the flat-key facts from `flatOkB`. -/
theorem flatOk_spec (g key : String) (h : flatOkB g key = true) :
    (flat_key g key).data ≠ [] ∧
      (∀ c ∈ (flat_key g key).data, isPySpace c = false) ∧
      id_to_group_key (flat_key g key) = some (g, key) := by
  unfold flatOkB at h
  simp only [Bool.and_eq_true] at h
  obtain ⟨⟨h1, h2⟩, h3⟩ := h
  refine ⟨?_, ?_, ?_⟩
  · intro hc
    rw [hc] at h1
    exact absurd h1 (by decide)
  · intro c hc
    have := List.all_eq_true.mp h2 c hc
    simpa using this
  · cases hid : id_to_group_key (flat_key g key) with
    | none =>
      rw [hid] at h3
      have h3' : (false : Bool) = true := h3
      exact absurd h3' (by decide)
    | some p =>
      obtain ⟨pg, pk⟩ := p
      rw [hid] at h3
      simp only [Bool.and_eq_true] at h3
      rw [eq_of_beq h3.1, eq_of_beq h3.2]

/-- Extract the left-column decomposition from `leftOkB`. -/
theorem leftOk_spec (g mapPfx key descr : String)
    (h : leftOkB g mapPfx key descr = true) :
    left35 g mapPfx key descr =
      ('[' :: ((flat_key g key).data ++ [']'])) ++
        ' ' :: restD g mapPfx key descr := by
  unfold leftOkB at h
  exact eq_of_beq h

/-- Extract the unit-suffix facts from `postOkB`. -/
theorem postOk_spec (post : List Char) (h : postOkB post = true) :
    post = [] ∨ ((∃ u, post = ' ' :: u) ∧
      (∀ c, post.getLast? = some c → isPySpace c = false)) := by
  unfold postOkB at h
  simp only [Bool.or_eq_true, Bool.and_eq_true] at h
  rcases h with h | ⟨h1, h2⟩
  · left
    exact List.isEmpty_iff.mp h
  · right
    exact ⟨head_space_of post h1, lastNonWs_spec post h2⟩

/-- A `getLast?` hit is a member. -/
theorem getLast?_mem_chars (l : List Char) (c : Char) (h : l.getLast? = some c) :
    c ∈ l := by
  obtain ⟨hne2, rfl⟩ := List.mem_getLast?_eq_getLast (by rw [Option.mem_def, h])
  exact List.getLast_mem hne2

/-- The last character of an append with a clean nonempty right part. -/
theorem getLast?_append_right (A B : List Char) (hB : B ≠ [])
    (hlastB : ∀ c, B.getLast? = some c → isPySpace c = false) :
    ∀ c, (A ++ B).getLast? = some c → isPySpace c = false := by
  intro c hc
  rw [List.getLast?_append] at hc
  cases hg : B.getLast? with
  | none => exact absurd (List.getLast?_eq_none_iff.mp hg) hB
  | some b =>
    rw [hg] at hc
    rw [show (some b).or A.getLast? = some b from rfl] at hc
    injection hc with hbc
    rw [← hbc]
    exact hlastB b hg

/-- Splitting `numeral ++ ' ' :: u` into the numeral token and the unit
tokens. -/
theorem pySplit_num_unit (numeral u : List Char) (hne : numeral ≠ [])
    (hnw : ∀ c ∈ numeral, isPySpace c = false) :
    pySplit (numeral ++ ' ' :: u) = numeral :: pySplit u := by
  rw [pySplit_append_space, pySplit_token numeral hne hnw]
  rfl

/-- A nonempty template spec rules out the bare `{}` template. -/
theorem units_ne_brace_of_spec (units : String) (pre spec post : List Char)
    (hspt : splitTemplate units.data = some (pre, spec, post))
    (hne : spec ≠ []) : units ≠ "{}" := by
  intro h
  subst h
  have hbr : splitTemplate "{}".data = some ([], [], []) := rfl
  rw [hbr] at hspt
  have h2 : spec = [] := by
    simp only [Option.some.injEq, Prod.mk.injEq] at hspt
    exact hspt.2.1.symm
  exact hne h2

/-- The decidable side condition plus a well-typed value give the field
round trip. -/
theorem sideCond_imp_field_ok (g mapPfx key descr units : String)
    (hsc : sideCondB g mapPfx key descr units = true)
    (v : Json) (hv : val_ok key units v) :
    field_ok g mapPfx key descr units v := by
  unfold sideCondB at hsc
  simp only [Bool.and_eq_true] at hsc
  obtain ⟨⟨⟨hflatB, hleftB⟩, hlen17B⟩, hrest⟩ := hsc
  obtain ⟨hfne, hfnw, hres⟩ := flatOk_spec g key hflatB
  have hleft := leftOk_spec g mapPfx key descr hleftB
  have hlen17 : 17 ≤ (restD g mapPfx key descr).length := of_decide_eq_true hlen17B
  by_cases hkam : key = "am"
  · -- axis-mode field: the rendered value ignores `units`
    subst hkam
    rw [if_pos (by decide)] at hrest
    simp only [Bool.and_eq_true] at hrest
    obtain ⟨⟨ham, hptokB⟩, hidne⟩ := hrest
    unfold val_ok at hv
    rw [if_pos rfl] at hv
    obtain ⟨n, rfl, hn0, hn4⟩ := hv
    have hptok := prefixTokensOk_spec _ hptokB
    have hkeyne : ((flat_key g "am").data == "id".data) = false :=
      string_beq_data_false _ _ (by simpa using hidne)
    interval_cases n
    · exact field_ok_build g mapPfx "am" descr units
        (intRepr 0) (' ' :: "[disabled]".data) (Json.jint 0) (Json.jint 0)
        hleft hfnw hkeyne hres rfl rfl
        (by rw [show trim_count (intRepr 0 ++ ' ' :: "[disabled]".data) = 2
              from by decide]
            omega)
        hptok (intRepr_ne_nil 0) (is_number_intRepr 0) (get_val_intRepr 0)
        ⟨_, pySplit_num_unit _ _ (intRepr_ne_nil 0) (intRepr_no_space 0)⟩
        (lastNonWs_spec _ (by decide))
    · exact field_ok_build g mapPfx "am" descr units
        (intRepr 1) (' ' :: "[standard]".data) (Json.jint 1) (Json.jint 1)
        hleft hfnw hkeyne hres rfl rfl
        (by rw [show trim_count (intRepr 1 ++ ' ' :: "[standard]".data) = 2
              from by decide]
            omega)
        hptok (intRepr_ne_nil 1) (is_number_intRepr 1) (get_val_intRepr 1)
        ⟨_, pySplit_num_unit _ _ (intRepr_ne_nil 1) (intRepr_no_space 1)⟩
        (lastNonWs_spec _ (by decide))
    · exact field_ok_build g mapPfx "am" descr units
        (intRepr 2) (' ' :: "[inhibited]".data) (Json.jint 2) (Json.jint 2)
        hleft hfnw hkeyne hres rfl rfl
        (by rw [show trim_count (intRepr 2 ++ ' ' :: "[inhibited]".data) = 2
              from by decide]
            omega)
        hptok (intRepr_ne_nil 2) (is_number_intRepr 2) (get_val_intRepr 2)
        ⟨_, pySplit_num_unit _ _ (intRepr_ne_nil 2) (intRepr_no_space 2)⟩
        (lastNonWs_spec _ (by decide))
    · exact field_ok_build g mapPfx "am" descr units
        (intRepr 3) (' ' :: "[radius]".data) (Json.jint 3) (Json.jint 3)
        hleft hfnw hkeyne hres rfl rfl
        (by rw [show trim_count (intRepr 3 ++ ' ' :: "[radius]".data) = 2
              from by decide]
            omega)
        hptok (intRepr_ne_nil 3) (is_number_intRepr 3) (get_val_intRepr 3)
        ⟨_, pySplit_num_unit _ _ (intRepr_ne_nil 3) (intRepr_no_space 3)⟩
        (lastNonWs_spec _ (by decide))
  · -- numeric and string templates
    have hkamB : (key == "am") = false := beq_eq_false_iff_ne.mpr hkam
    rw [if_neg (by simp [hkamB])] at hrest
    cases hspt : splitTemplate units.data with
    | none =>
      rw [hspt] at hrest
      have hr' : (false : Bool) = true := hrest
      exact absurd hr' (by decide)
    | some trip =>
      obtain ⟨pre, spec, post⟩ := trip
      rw [hspt] at hrest
      simp only [Bool.and_eq_true] at hrest
      obtain ⟨hpreB, hbranch⟩ := hrest
      have hpre : pre = [] := List.isEmpty_iff.mp hpreB
      subst hpre
      cases hspec : spec.isEmpty with
      | true =>
        -- the `{}` template: the sys id field
        rw [if_pos hspec] at hbranch
        simp only [Bool.and_eq_true] at hbranch
        obtain ⟨⟨⟨⟨hgsys, hkid⟩, hub⟩, hlen21B⟩, hidpB⟩ := hbranch
        have hg' : g = "sys" := eq_of_beq hgsys
        have hk' : key = "id" := eq_of_beq hkid
        have hu' : units = "{}" := eq_of_beq hub
        subst hg'
        subst hk'
        subst hu'
        unfold val_ok at hv
        rw [if_neg (by decide), if_pos rfl] at hv
        obtain ⟨s, rfl, hsne, hslen, hsnw, hsnn⟩ := hv
        exact field_ok_build_id mapPfx descr s hsne hslen hsnw hsnn hleft
          (of_decide_eq_true hlen21B) hidpB
      | false =>
        rw [if_neg (by simp [hspec])] at hbranch
        have hkeyne : ((flat_key g key).data == "id".data) = false := by
          cases hsd2 : (spec == ":d".data) with
          | true =>
            rw [if_pos hsd2] at hbranch
            simp only [Bool.and_eq_true] at hbranch
            exact string_beq_data_false _ _ (by simpa using hbranch.2)
          | false =>
            rw [if_neg (by simp [hsd2])] at hbranch
            simp only [Bool.and_eq_true] at hbranch
            exact string_beq_data_false _ _ (by simpa using hbranch.2)
        have hune : units ≠ "{}" := units_ne_brace_of_spec units [] spec post hspt
          (by intro hc; rw [hc] at hspec; exact absurd hspec (by decide))
        unfold val_ok at hv
        rw [if_neg hkam, if_neg hune] at hv
        obtain ⟨n, rfl, hbound⟩ := hv
        have hfrKey : ∀ w : Json, fmt_right key units w = renderFmt units w := by
          intro w
          unfold fmt_right
          rw [if_neg (by simp [hkamB])]
        cases hsd : (spec == ":d".data) with
        | true =>
          -- the `{:d}` template
          have hspec_d : spec = ":d".data := eq_of_beq hsd
          subst hspec_d
          rw [if_pos (by decide)] at hbranch
          simp only [Bool.and_eq_true] at hbranch
          obtain ⟨⟨hpostB, hptokB⟩, _⟩ := hbranch
          have hptok := prefixTokensOk_spec _ hptokB
          have hfrm : ∀ m : Int, fmt_right key units (Json.jint m) =
              some (intRepr m ++ post) := by
            intro m
            rw [hfrKey]
            exact renderFmt_int_spec units post hspt m
          rcases postOk_spec post hpostB with h0 | ⟨⟨u, hu⟩, hlp⟩
          · subst h0
            refine field_ok_build g mapPfx key descr units (intRepr n) [] _ _
              hleft hfnw hkeyne hres (hfrm n) (hfrm n) ?_ hptok
              (intRepr_ne_nil n) (is_number_intRepr n) (get_val_intRepr n)
              ⟨[], by rw [List.append_nil]; exact pySplit_token _ (intRepr_ne_nil n) (intRepr_no_space n)⟩
              ?_
            · have h2 : trim_count (intRepr n ++ ([] : List Char)) = 2 := by
                rw [List.append_nil]
                exact trim_count_plain _ (intRepr_no_space_char n) (intRepr_no_period n)
              omega
            · intro c hc
              rw [List.append_nil] at hc
              exact intRepr_no_space n c (getLast?_mem_chars _ c hc)
          · subst hu
            refine field_ok_build g mapPfx key descr units (intRepr n) (' ' :: u) _ _
              hleft hfnw hkeyne hres (hfrm n) (hfrm n) ?_ hptok
              (intRepr_ne_nil n) (is_number_intRepr n) (get_val_intRepr n)
              ⟨_, pySplit_num_unit _ _ (intRepr_ne_nil n) (intRepr_no_space n)⟩
              (getLast?_append_right _ _ (by simp) hlp)
            have h2 := trim_count_num_unit (intRepr n) u
              (intRepr_no_space_char n) (intRepr_no_period n)
            have h3 := intRepr_length_le n hbound
            omega
        | false =>
          -- the `{:.Nf}` template
          rw [if_neg (by simp [hsd])] at hbranch
          simp only [Bool.and_eq_true] at hbranch
          obtain ⟨⟨⟨⟨htake2, hdspart⟩, hpostB⟩, hptokB⟩, _⟩ := hbranch
          obtain ⟨⟨hdrop, hdsne⟩, hdspos⟩ := hdspart
          have hptok := prefixTokensOk_spec _ hptokB
          have htd : spec.take 2 = [':', '.'] := eq_of_beq htake2
          have hdd : spec.drop 2 = (spec.drop 2).takeWhile isDig ++ ['f'] :=
            eq_of_beq hdrop
          have hs_eq : spec = ':' :: '.' :: ((spec.drop 2).takeWhile isDig ++ ['f']) := by
            conv_lhs => rw [← List.take_append_drop 2 spec]
            rw [htd]
            conv_lhs => rw [hdd]
            rfl
          have hds_ne : (spec.drop 2).takeWhile isDig ≠ [] := by
            intro hc
            rw [hc] at hdsne
            exact absurd hdsne (by decide)
          have hds_dig : ∀ c ∈ (spec.drop 2).takeWhile isDig, isDig c = true :=
            fun c hc => List.mem_takeWhile_imp hc
          have hN : 0 < digitsVal ((spec.drop 2).takeWhile isDig) :=
            of_decide_eq_true hdspos
          rw [hs_eq] at hspt
          obtain ⟨hri, hrf⟩ := renderFmt_fixed_spec units _ post hspt hds_ne hds_dig
          have hfr : fmt_right key units (Json.jint n) =
              some ((intRepr n ++ '.' ::
                List.replicate (digitsVal ((spec.drop 2).takeWhile isDig)) '0') ++ post) := by
            rw [hfrKey]
            exact hri n
          have hfr' : fmt_right key units (Json.jfloat ((n : Rat))) =
              some ((intRepr n ++ '.' ::
                List.replicate (digitsVal ((spec.drop 2).takeWhile isDig)) '0') ++ post) := by
            rw [hfrKey, hrf ((n : Rat)),
              ratFixed_int n (digitsVal ((spec.drop 2).takeWhile isDig)) hN]
          have hZsp : ∀ c ∈ List.replicate
              (digitsVal ((spec.drop 2).takeWhile isDig)) '0', (c == ' ') = false := by
            intro c hc
            rw [List.eq_of_mem_replicate hc]
            decide
          have hshape : (intRepr n ++ '.' ::
              List.replicate (digitsVal ((spec.drop 2).takeWhile isDig)) '0') ++ post =
              intRepr n ++ '.' ::
                (List.replicate (digitsVal ((spec.drop 2).takeWhile isDig)) '0' ++ post) := by
            simp
          have hnum_ne : intRepr n ++ '.' ::
              List.replicate (digitsVal ((spec.drop 2).takeWhile isDig)) '0' ≠ [] := by
            intro hc
            exact intRepr_ne_nil n (List.append_eq_nil.mp hc).1
          have hkval : trim_count ((intRepr n ++ '.' ::
              List.replicate (digitsVal ((spec.drop 2).takeWhile isDig)) '0') ++ post) =
              (intRepr n).length + 1 := by
            rw [hshape]
            refine trim_count_fixed _ _ _ (intRepr_ne_nil n)
              (intRepr_no_space_char n) (intRepr_no_period n) hZsp ?_
            rcases postOk_spec post hpostB with h0 | ⟨⟨u, hu⟩, _⟩
            · exact Or.inl h0
            · exact Or.inr ⟨u, hu⟩
          rcases postOk_spec post hpostB with h0 | ⟨⟨u, hu⟩, hlp⟩
          · subst h0
            refine field_ok_build g mapPfx key descr units _ [] _ _
              hleft hfnw hkeyne hres hfr hfr' ?_ hptok hnum_ne
              (is_number_fixed n _) (get_val_fixed n _)
              ⟨[], by rw [List.append_nil]; exact pySplit_token _ hnum_ne (fixed_no_space n _)⟩
              ?_
            · have h3 := intRepr_length_le n hbound
              omega
            · intro c hc
              rw [List.append_nil] at hc
              exact fixed_no_space n _ c (getLast?_mem_chars _ c hc)
          · subst hu
            refine field_ok_build g mapPfx key descr units _ (' ' :: u) _ _
              hleft hfnw hkeyne hres hfr hfr' ?_ hptok hnum_ne
              (is_number_fixed n _) (get_val_fixed n _)
              ⟨_, pySplit_num_unit _ _ hnum_ne (fixed_no_space n _)⟩
              (getLast?_append_right _ _ (by simp) hlp)
            have h3 := intRepr_length_le n hbound
            omega

/-- Every registry field with a well-typed value survives the
format/parse/format round trip. -/
theorem all_fields_ok :
    ∀ me ∈ CONFIG_MAP, ∀ strs, CONFIG_STR.lookup me.2 = some strs →
    ∀ fld ∈ strs, ∀ v, val_ok fld.1 fld.2.2 v →
      field_ok me.1 me.2 fld.1 fld.2.1 fld.2.2 v := by
  intro me hme strs hstrs fld hfld v hv
  have h0 : CONFIG_MAP.all (fun me =>
      match CONFIG_STR.lookup me.2 with
      | some strs => strs.all (fun fld => sideCondB me.1 me.2 fld.1 fld.2.1 fld.2.2)
      | none => false) = true := all_fields_check_true
  have h1 := List.all_eq_true.mp h0 me hme
  rw [hstrs] at h1
  have h2 : strs.all (fun fld => sideCondB me.1 me.2 fld.1 fld.2.1 fld.2.2) = true := h1
  exact sideCond_imp_field_ok me.1 me.2 fld.1 fld.2.1 fld.2.2
    (List.all_eq_true.mp h2 fld hfld) v hv

/-! ## C8 — store-level lemmas: merging parsed lines back -/

/-- A key absent from the map is not found. -/
theorem lookup_none_not_mem {β : Type} (l : List (String × β)) (k : String)
    (h : k ∉ l.map Prod.fst) : l.lookup k = none := by
  induction l with
  | nil => rfl
  | cons e t ih =>
    obtain ⟨k2, v2⟩ := e
    have hne : (k == k2) = false :=
      beq_eq_false_iff_ne.mpr (fun hc => h (by simp [hc]))
    simp only [List.lookup, hne]
    exact ih (fun hm => h (by simp [hm]))

/-- Lookup skips a prefix in which the key is absent. -/
theorem lookup_append_none {β : Type} (l1 l2 : List (String × β)) (k : String)
    (h : k ∉ l1.map Prod.fst) : (l1 ++ l2).lookup k = l2.lookup k := by
  induction l1 with
  | nil => rfl
  | cons e t ih =>
    obtain ⟨k2, v2⟩ := e
    have hne : (k == k2) = false :=
      beq_eq_false_iff_ne.mpr (fun hc => h (by simp [hc]))
    simp only [List.cons_append, List.lookup, hne]
    exact ih (fun hm => h (by simp [hm]))

/-- Lookup at the head. -/
theorem lookup_cons_self {β : Type} (k : String) (v : β) (t : List (String × β)) :
    ((k, v) :: t).lookup k = some v := by
  simp [List.lookup]

/-- A successful lookup is a member. -/
theorem lookup_mem {β : Type} (l : List (String × β)) (k : String) (v : β)
    (h : l.lookup k = some v) : (k, v) ∈ l := by
  induction l with
  | nil => cases h
  | cons e t ih =>
    obtain ⟨k2, v2⟩ := e
    cases hbe : (k == k2) with
    | true =>
      rw [List.lookup, hbe] at h
      injection h with hv
      rw [eq_of_beq hbe, hv]
      exact List.mem_cons_self _ _
    | false =>
      rw [List.lookup, hbe] at h
      exact List.mem_cons_of_mem _ (ih h)

/-- Setting a fresh key appends it. -/
theorem setKey_not_mem (cur : List (String × Json)) (k : String) (v : Json)
    (h : k ∉ cur.map Prod.fst) : setKey cur k v = cur ++ [(k, v)] := by
  induction cur with
  | nil => rfl
  | cons e rest ih =>
    obtain ⟨k2, v2⟩ := e
    have hne : k2 ≠ k := fun hc => h (by simp [hc])
    simp only [setKey, beq_eq_false_iff_ne.mpr hne, Bool.false_eq_true, if_false,
      List.cons_append]
    rw [ih (fun hm => h (by simp [hm]))]

/-- `addOne` into a group located in the middle of the store. -/
theorem addOne_mid (A : Store) :
    ∀ (B : Store) (g : String) (cur f : List (String × Json)),
      g ∉ A.map Prod.fst →
      addOne (A ++ (g, cur) :: B) g f = A ++ (g, dictUpdate cur f) :: B := by
  induction A with
  | nil =>
    intro B g cur f _
    simpa using addOne_cons_eq g cur B f
  | cons e rest ih =>
    intro B g cur f hA
    obtain ⟨g2, f2⟩ := e
    have hne : g2 ≠ g := fun hc => hA (by simp [hc])
    rw [List.cons_append, addOne_cons_ne _ _ _ _ _ hne,
      ih B g cur f (fun hm => hA (by simp [hm])), List.cons_append]

/-- Folding per-field merges into a group present in the middle of the
store extends that group's dictionary in order. -/
theorem fold_addOne_present (pf : List (String × Json)) :
    ∀ (A B : Store) (g : String) (cur : List (String × Json)),
      g ∉ A.map Prod.fst →
      (∀ kv ∈ pf, kv.1 ∉ cur.map Prod.fst) →
      (pf.map Prod.fst).Nodup →
      List.foldl (fun acc kv => addOne acc g [kv]) (A ++ (g, cur) :: B) pf =
        A ++ (g, cur ++ pf) :: B := by
  induction pf with
  | nil =>
    intro A B g cur _ _ _
    simp
  | cons p pf' ih =>
    intro A B g cur hA hfresh hnd
    rw [List.foldl_cons, addOne_mid A B g cur [p] hA]
    have hdu : dictUpdate cur [p] = cur ++ [p] :=
      setKey_not_mem cur p.1 p.2 (hfresh p (by simp))
    rw [hdu]
    have hfr' : ∀ kv ∈ pf', kv.1 ∉ ((cur ++ [p]).map Prod.fst) := by
      intro kv hkv hm
      rw [List.map_append] at hm
      rcases List.mem_append.mp hm with h1 | h2
      · exact hfresh kv (by simp [hkv]) h1
      · have hkp : kv.1 = p.1 := by simpa using h2
        have hp : p.1 ∉ pf'.map Prod.fst :=
          (List.nodup_cons.mp (by simpa using hnd)).1
        exact hp (hkp ▸ List.mem_map_of_mem Prod.fst hkv)
    have hnd' : (pf'.map Prod.fst).Nodup :=
      (List.nodup_cons.mp (by simpa using hnd)).2
    rw [ih A B g (cur ++ [p]) hA hfr' hnd']
    simp

/-- Folding per-field merges of a fresh group appends the whole group. -/
theorem fold_addOne_fresh (pf : List (String × Json)) (st : Store) (g : String)
    (hst : g ∉ st.map Prod.fst) (hnd : (pf.map Prod.fst).Nodup) (hne : pf ≠ []) :
    List.foldl (fun acc kv => addOne acc g [kv]) st pf = st ++ [(g, pf)] := by
  cases pf with
  | nil => cases hne rfl
  | cons p pf' =>
    rw [List.foldl_cons, addOne_of_not_mem st g [p] hst]
    have hfr : ∀ kv ∈ pf',
        kv.1 ∉ (([p] : List (String × Json)).map Prod.fst) := by
      intro kv hkv hm
      have hkp : kv.1 = p.1 := by simpa using hm
      have hp : p.1 ∉ pf'.map Prod.fst :=
        (List.nodup_cons.mp (by simpa using hnd)).1
      exact hp (hkp ▸ List.mem_map_of_mem Prod.fst hkv)
    have hnd' : (pf'.map Prod.fst).Nodup :=
      (List.nodup_cons.mp (by simpa using hnd)).2
    have h2 := fold_addOne_present pf' st [] g [p] hst hfr hnd'
    rw [show st ++ [(g, [p])] = st ++ (g, [p]) :: [] from rfl, h2]
    rfl

/-- `read_text` splits over an append of line lists. -/
theorem read_text_append (L1 L2 : List String) :
    ∀ st, read_text (L1 ++ L2) st =
      match read_text L1 st with
      | some st1 => read_text L2 st1
      | none => none := by
  induction L1 with
  | nil => intro st; rfl
  | cons l L1' ih =>
    intro st
    rw [List.cons_append]
    simp only [read_text]
    cases hp : parse_line l with
    | none => rfl
    | some o =>
      cases o with
      | none => exact ih st
      | some gv =>
        obtain ⟨⟨g, k⟩, v⟩ := gv
        exact ih (addOne st g [(k, v)])

/-- `display_fields` only inspects the schema keys' lookups. -/
theorem display_fields_ext (g : String) (strs : List (String × String × String)) :
    ∀ (v1 v2 : List (String × Json)),
      (∀ fld ∈ strs, v1.lookup fld.1 = v2.lookup fld.1) →
      display_fields g v1 strs = display_fields g v2 strs := by
  induction strs with
  | nil => intro _ _ _; rfl
  | cons fld rest ih =>
    intro v1 v2 h
    obtain ⟨key, descr, units⟩ := fld
    unfold display_fields
    rw [h (key, descr, units) (by simp)]
    rw [ih v1 v2 (fun f hf => h f (by simp [hf]))]

/-- One present group survives the round trip: its printed lines parse back
into per-field merges that build a dictionary with the same displayed
triples. -/
theorem group_roundtrip (g mapPfx : String)
    (strs : List (String × String × String))
    (vals : List (String × Json))
    (hfld : ∀ fld ∈ strs, ∀ v, val_ok fld.1 fld.2.2 v →
      field_ok g mapPfx fld.1 fld.2.1 fld.2.2 v)
    (hvals : ∀ fld ∈ strs, ∀ v, vals.lookup fld.1 = some v → val_ok fld.1 fld.2.2 v)
    (hnd : (strs.map Prod.fst).Nodup) :
    ∃ (lines : List String) (pf : List (String × Json))
      (disp : List (String × String × String)),
      dump_fields g mapPfx vals strs = some lines ∧
      display_fields g vals strs = some disp ∧
      (∀ st, read_text lines st =
        some (List.foldl (fun acc kv => addOne acc g [kv]) st pf)) ∧
      display_fields g pf strs = some disp ∧
      (pf.map Prod.fst).Nodup ∧
      (∀ x ∈ pf.map Prod.fst, x ∈ strs.map Prod.fst) ∧
      (pf = [] ↔ lines = []) ∧ (pf = [] ↔ disp = []) := by
  induction strs with
  | nil =>
    exact ⟨[], [], [], rfl, rfl, fun st => rfl, rfl, List.nodup_nil,
      by simp, by simp, by simp⟩
  | cons fld rest ih =>
    obtain ⟨key, descr, units⟩ := fld
    have hndr : (rest.map Prod.fst).Nodup :=
      (List.nodup_cons.mp (by simpa using hnd)).2
    have hkey_not : key ∉ rest.map Prod.fst :=
      (List.nodup_cons.mp (by simpa using hnd)).1
    obtain ⟨lines', pf', disp', h1, h2, h3, h4, h5, h6, h7, h8⟩ :=
      ih (fun f hf => hfld f (by simp [hf])) (fun f hf => hvals f (by simp [hf])) hndr
    cases hlv : vals.lookup key with
    | none =>
      refine ⟨lines', pf', disp', ?_, ?_, h3, ?_, h5, ?_, h7, h8⟩
      · simp only [dump_fields, hlv]
        exact h1
      · simp only [display_fields, hlv]
        exact h2
      · simp only [display_fields,
          lookup_none_not_mem pf' key (fun hm => hkey_not (h6 key hm))]
        exact h4
      · exact fun x hm => by simp [h6 x hm]
    | some v =>
      have hvo : val_ok key units v := hvals (key, descr, units) (by simp) v hlv
      obtain ⟨line, right, v', hfl, hfr, hpl, hfr'⟩ :=
        hfld (key, descr, units) (by simp) v hvo
      have hext : display_fields g ((key, v') :: pf') rest =
          display_fields g pf' rest := by
        apply display_fields_ext
        intro f hf
        have hne : (f.1 == key) = false :=
          beq_eq_false_iff_ne.mpr
            (fun hc => hkey_not (hc ▸ List.mem_map_of_mem Prod.fst hf))
        simp only [List.lookup, hne]
      refine ⟨line :: lines', (key, v') :: pf',
        (g, key, (⟨right⟩ : String)) :: disp', ?_, ?_, ?_, ?_, ?_, ?_, ?_, ?_⟩
      · simp only [dump_fields, hlv, hfl, h1, Option.map_some']
      · simp only [display_fields, hlv, hfr, h2, Option.map_some']
      · intro st
        simp only [read_text, hpl, h3, List.foldl_cons]
      · simp only [display_fields, lookup_cons_self, hfr', hext, h4,
          Option.map_some']
      · simp only [List.map_cons]
        exact List.nodup_cons.mpr ⟨fun hm => hkey_not (h6 key hm), h5⟩
      · intro x hm
        simp only [List.map_cons, List.mem_cons] at hm
        rcases hm with rfl | hm
        · simp
        · simp [h6 x hm]
      · simp
      · simp

/-- The full dump/parse round trip over a suffix of the group mapping:
the printed lines parse back onto the accumulator as appended groups, and
the rebuilt store displays exactly the original's triples. -/
theorem dump_read_roundtrip (st : Store)
    (hst : ∀ gf ∈ st, ∀ me ∈ CONFIG_MAP, me.1 = gf.1 →
      ∀ strs, CONFIG_STR.lookup me.2 = some strs →
      ∀ fld ∈ strs, ∀ v, gf.2.lookup fld.1 = some v → val_ok fld.1 fld.2.2 v) :
    ∀ maps : List (String × String),
      (maps.map Prod.fst).Nodup →
      (∀ me ∈ maps, me ∈ CONFIG_MAP) →
      ∀ acc : Store, (∀ me ∈ maps, me.1 ∉ acc.map Prod.fst) →
      ∃ lines ext,
        dump_go st maps = some lines ∧
        read_text lines acc = some (acc ++ ext) ∧
        (∀ x ∈ ext.map Prod.fst, x ∈ maps.map Prod.fst) ∧
        display_go (acc ++ ext) maps = display_go st maps := by
  have hreg : ∀ me ∈ CONFIG_MAP, ∃ strs, CONFIG_STR.lookup me.2 = some strs ∧
      (strs.map Prod.fst).Nodup ∧
      (∀ fld ∈ strs, ∀ v, val_ok fld.1 fld.2.2 v →
        field_ok me.1 me.2 fld.1 fld.2.1 fld.2.2 v) := by
    intro me hme
    have hchk : CONFIG_MAP.all (fun me =>
        match CONFIG_STR.lookup me.2 with
        | some strs => decide ((strs.map Prod.fst).Nodup)
        | none => false) = true := by decide
    have h1 := List.all_eq_true.mp hchk me hme
    cases hlk : CONFIG_STR.lookup me.2 with
    | none =>
      rw [hlk] at h1
      have h1' : (false : Bool) = true := h1
      exact absurd h1' (by decide)
    | some strs =>
      rw [hlk] at h1
      have h1' : decide ((strs.map Prod.fst).Nodup) = true := h1
      exact ⟨strs, rfl, of_decide_eq_true h1', fun fld hfld v hv =>
        all_fields_ok me hme strs hlk fld hfld v hv⟩
  intro maps
  induction maps with
  | nil =>
    intro _ _ acc _
    exact ⟨[], [], rfl, by simp [read_text], by simp, rfl⟩
  | cons me maps' ih =>
    intro hnd hsub acc hacc
    obtain ⟨gid, sid⟩ := me
    have hnd2 : gid ∉ maps'.map Prod.fst ∧ (maps'.map Prod.fst).Nodup :=
      List.nodup_cons.mp hnd
    obtain ⟨strs, hlk, hsnd, hffld⟩ := hreg (gid, sid) (hsub (gid, sid) (by simp))
    cases hstl : st.lookup gid with
    | none =>
      obtain ⟨lines2, ext2, hA, hB, hC, hD⟩ := ih hnd2.2
        (fun m hm => hsub m (by simp [hm])) acc (fun m hm => hacc m (by simp [hm]))
      refine ⟨lines2, ext2, ?_, hB, ?_, ?_⟩
      · simp only [dump_go, hstl]
        exact hA
      · exact fun x hm => by simp [hC x hm]
      · have hl1 : (acc ++ ext2).lookup gid = none := by
          rw [lookup_append_none _ _ _ (hacc (gid, sid) (by simp))]
          exact lookup_none_not_mem ext2 gid (fun hm => hnd2.1 (hC gid hm))
        simp only [display_go, hstl, hl1]
        exact hD
    | some vals =>
      have hgv : (gid, vals) ∈ st := lookup_mem st gid vals hstl
      have hvals : ∀ fld ∈ strs, ∀ v, vals.lookup fld.1 = some v →
          val_ok fld.1 fld.2.2 v :=
        fun fld hfld v hv => hst (gid, vals) hgv (gid, sid)
          (hsub (gid, sid) (by simp)) rfl strs hlk fld hfld v hv
      obtain ⟨lines1, pf, disp, hg1, hg2, hg3, hg4, hg5, hg6, hg7, hg8⟩ :=
        group_roundtrip gid sid strs vals hffld hvals hsnd
      cases pf with
      | nil =>
        have hl1 : lines1 = [] := hg7.mp rfl
        have hd1 : disp = [] := hg8.mp rfl
        subst hl1
        subst hd1
        obtain ⟨lines2, ext2, hA, hB, hC, hD⟩ := ih hnd2.2
          (fun m hm => hsub m (by simp [hm])) acc (fun m hm => hacc m (by simp [hm]))
        refine ⟨lines2, ext2, ?_, hB, ?_, ?_⟩
        · simp only [dump_go, hstl, hlk, hg1, hA, Option.map_some', List.nil_append]
        · exact fun x hm => by simp [hC x hm]
        · have hl2 : (acc ++ ext2).lookup gid = none := by
            rw [lookup_append_none _ _ _ (hacc (gid, sid) (by simp))]
            exact lookup_none_not_mem ext2 gid (fun hm => hnd2.1 (hC gid hm))
          rw [show display_go (acc ++ ext2) ((gid, sid) :: maps') =
              display_go (acc ++ ext2) maps' from by simp only [display_go, hl2]]
          rw [hD]
          rw [show display_go st ((gid, sid) :: maps') =
              (display_go st maps').map (([] : List (String × String × String)) ++ ·)
              from by simp only [display_go, hstl, hlk, hg2]]
          cases display_go st maps' with
          | none => rfl
          | some d => simp
      | cons p pf2 =>
        have hpne : (p :: pf2 : List (String × Json)) ≠ [] := by simp
        have hfresh_gid : gid ∉ acc.map Prod.fst := hacc (gid, sid) (by simp)
        have hstep : read_text lines1 acc = some (acc ++ [(gid, p :: pf2)]) := by
          rw [hg3 acc, fold_addOne_fresh _ acc gid hfresh_gid hg5 hpne]
        have hfr2 : ∀ m ∈ maps', m.1 ∉ (acc ++ [(gid, p :: pf2)]).map Prod.fst := by
          intro m hm
          rw [List.map_append]
          intro hmem
          rcases List.mem_append.mp hmem with h1 | h2
          · exact hacc m (by simp [hm]) h1
          · have hme : m.1 = gid := by simpa using h2
            exact hnd2.1 (hme ▸ List.mem_map_of_mem Prod.fst hm)
        obtain ⟨lines2, ext2, hA, hB, hC, hD⟩ := ih hnd2.2
          (fun m hm => hsub m (by simp [hm])) (acc ++ [(gid, p :: pf2)]) hfr2
        refine ⟨lines1 ++ lines2, (gid, p :: pf2) :: ext2, ?_, ?_, ?_, ?_⟩
        · simp only [dump_go, hstl, hlk, hg1, hA, Option.map_some']
        · rw [read_text_append, hstep]
          have hB' : (match some (acc ++ [(gid, p :: pf2)]) with
              | some st1 => read_text lines2 st1
              | none => none) = some ((acc ++ [(gid, p :: pf2)]) ++ ext2) := hB
          rw [hB']
          simp
        · intro x hm
          simp only [List.map_cons, List.mem_cons] at hm
          rcases hm with rfl | hm
          · simp
          · simp [hC x hm]
        · have hl2 : (acc ++ (gid, p :: pf2) :: ext2).lookup gid =
              some (p :: pf2) := by
            rw [lookup_append_none _ _ _ hfresh_gid, lookup_cons_self]
          have hshape : acc ++ (gid, p :: pf2) :: ext2 =
              (acc ++ [(gid, p :: pf2)]) ++ ext2 := by simp
          simp only [display_go, hstl, hlk, hl2, hg2, hg4]
          rw [hshape, hD]

/-! ## C8 — idempotence of text formatting on displayed values -/

/-- C8 (amended): text formatting is idempotent on displayed values for
stores whose values lie in the round-trip-safe fragment (`val_ok`): axis
modes `0`–`3` for `am`, integers of magnitude below `10 ^ 15` for the
numeric templates, and nonempty whitespace-free non-numeric strings of at
most 20 characters for the `id` field.  Formatting with `dump_formatted`,
parsing the output with `read_text` into a fresh store, and formatting the
result again displays exactly the same `(group, key, value)` triples in
the same order.  (Without the restriction the property fails: see the
counterexample, where an `id` value containing a space — well-typed for
its `{}` template — does not survive the round trip.) -/
theorem c8_amended (st : Store)
    (hst : ∀ gf ∈ st, ∀ me ∈ CONFIG_MAP, me.1 = gf.1 →
      ∀ strs, CONFIG_STR.lookup me.2 = some strs →
      ∀ fld ∈ strs, ∀ v, gf.2.lookup fld.1 = some v → val_ok fld.1 fld.2.2 v) :
    ∃ lines st2,
      dump_formatted st = some lines ∧
      read_text lines [] = some st2 ∧
      display_triples st2 = display_triples st := by
  obtain ⟨lines, ext, h1, h2, _, h4⟩ := dump_read_roundtrip st hst CONFIG_MAP
    (by decide) (fun me hme => hme) [] (by simp)
  exact ⟨lines, ext, h1, by simpa using h2, by simpa [display_triples] using h4⟩

/-- Witness for the amended C8: the concrete store
`{g54: {x: 2, y: -3}}` lies in the safe fragment and round-trips with
identical displayed triples. -/
theorem c8_amended_witness :
    ∃ lines st2,
      dump_formatted [("g54", [("x", Json.jint 2), ("y", Json.jint (-3))])] =
          some lines ∧
      read_text lines [] = some st2 ∧
      display_triples st2 =
        display_triples [("g54", [("x", Json.jint 2), ("y", Json.jint (-3))])] := by
  apply c8_amended
  intro gf hgf me hme heq strs hstrs fld hfld v hv
  have hgf' : gf = ("g54", [("x", Json.jint 2), ("y", Json.jint (-3))]) := by
    simpa using hgf
  subst hgf'
  fin_cases hme <;> try exact absurd heq (by decide)
  rw [show CONFIG_STR.lookup "g" = some [("x", "x offset", "{:.3f} mm"),
      ("y", "y offset", "{:.3f} mm"), ("z", "z offset", "{:.3f} mm"),
      ("a", "a offset", "{:.3f} deg"), ("b", "b offset", "{:.3f} deg"),
      ("c", "c offset", "{:.3f} deg")] from rfl] at hstrs
  injection hstrs with hs
  subst hs
  fin_cases hfld
  · have hv' : some (Json.jint 2) = some v := hv
    injection hv' with h
    subst h
    unfold val_ok
    rw [if_neg (by decide), if_neg (by decide)]
    exact ⟨2, rfl, by norm_num⟩
  · have hv' : some (Json.jint (-3)) = some v := hv
    injection hv' with h
    subst h
    unfold val_ok
    rw [if_neg (by decide), if_neg (by decide)]
    exact ⟨-3, rfl, by norm_num⟩
  · exact Option.noConfusion (show (none : Option Json) = some v from hv)
  · exact Option.noConfusion (show (none : Option Json) = some v from hv)
  · exact Option.noConfusion (show (none : Option Json) = some v from hv)
  · exact Option.noConfusion (show (none : Option Json) = some v from hv)

/-- C8 counterexample: the store `{sys: {id: "ab cd"}}` has only
schema-known keys and a value well-typed for `id`'s display format `{}`,
yet formatting, parsing the output, and formatting again changes the
displayed triple: the parser takes only the fourth whitespace-delimited
token (`ab`) as the `id` value, so `"ab cd"` reloads as `"ab"`. -/
theorem c8_counterexample :
    dump_formatted [("sys", [("id", Json.jstr "ab cd")])] =
        some ["[id]  TinyG ID                   ab cd"] ∧
      read_text ["[id]  TinyG ID                   ab cd"] [] =
        some [("sys", [("id", Json.jstr "ab")])] ∧
      display_triples [("sys", [("id", Json.jstr "ab cd")])] =
        some [("sys", "id", "ab cd")] ∧
      display_triples [("sys", [("id", Json.jstr "ab")])] =
        some [("sys", "id", "ab")] ∧
      (some [("sys", "id", "ab cd")] : Option (List (String × String × String))) ≠
        some [("sys", "id", "ab")] :=
  ⟨rfl, rfl, rfl, rfl, by decide⟩

end TinyG
